import Mathlib

/-!
Verification development for the Smart-CA OCR extraction engine
(`backend/ml/ocr_engine.py`, class `EnhancedOCREngine`).

The recognized text is modelled as a `List Char`; Python floats are modelled
as exact rationals `ℚ` (every value handled by the engine is a decimal numeral,
hence exactly representable); regular-expression matching (`re.findall` /
`re.search`) is modelled by explicit left-to-right scanners with the same
greedy/backtracking behaviour as the concrete patterns of the source.
`datetime.now()` is modelled by an explicit `today` parameter.
-/

namespace SmartCA

/-- Lower-casing a character, modelling Python `str.lower` on the ASCII
range (all characters occurring in the engine's keyword tables). -/
def lc (c : Char) : Char := c.toLower

/-- Python whitespace (`\s`, `str.split()`, `str.strip()`), ASCII range. -/
def isPySpace (c : Char) : Bool :=
  c = ' ' || c = '\t' || c = '\n' || c = '\r' || c = '\x0b' || c = '\x0c'

/-- Python word character (`\w`), ASCII range: letters, digits, underscore. -/
def isWordChar (c : Char) : Bool := c.isAlphanum || c = '_'

/-- Numeric value of a digit character. -/
def dv (c : Char) : Nat := c.toNat - '0'.toNat

/-- Value of a list of digit characters read in base 10. -/
def natOfDigits (ds : List Char) : Nat := ds.foldl (fun n c => 10 * n + dv c) 0

/-- Fuel-driven Euclidean algorithm (structurally recursive, so that the
kernel can evaluate it, unlike `Nat.gcd`). -/
def myGcdAux : Nat → Nat → Nat → Nat
  | 0, _, n => n
  | fuel + 1, m, n => if m = 0 then n else myGcdAux fuel (n % m) m

/-- Greatest common divisor with enough fuel to agree with `Nat.gcd`. -/
def myGcd (m n : Nat) : Nat := myGcdAux (m + 1) m n

/-- The exact rational value of the decimal numeral
`whole.frac` with `k` fractional digits, i.e. `whole + frac / 10 ^ k`,
built directly in lowest terms so that the kernel can compute with it. -/
def decimalToRat (whole frac k : Nat) : ℚ := by
  have haux : ∀ fuel m n, m < fuel → myGcdAux fuel m n = Nat.gcd m n := by
    intro fuel
    induction fuel with
    | zero => intro m n h; omega
    | succ f ih =>
      intro m n h
      rw [myGcdAux]
      by_cases hm : m = 0
      · rw [if_pos hm, hm, Nat.gcd_zero_left]
      · rw [if_neg hm,
           ih (n % m) m (Nat.lt_of_lt_of_le (Nat.mod_lt n (Nat.pos_of_ne_zero hm)) (by omega))]
        exact (Nat.gcd_rec m n).symm
  have hg : myGcd (whole * 10 ^ k + frac) (10 ^ k) =
      Nat.gcd (whole * 10 ^ k + frac) (10 ^ k) := haux _ _ _ (Nat.lt_succ_self _)
  have hD : (10 : Nat) ^ k ≠ 0 := pow_ne_zero _ (by norm_num)
  have hg0 : Nat.gcd (whole * 10 ^ k + frac) (10 ^ k) ≠ 0 := fun h => hD (Nat.eq_zero_of_gcd_eq_zero_right h)
  refine Rat.mk'
    (((whole * 10 ^ k + frac) / myGcd (whole * 10 ^ k + frac) (10 ^ k) : Nat) : Int)
    ((10 ^ k) / myGcd (whole * 10 ^ k + frac) (10 ^ k)) ?_ ?_
  · rw [hg]
    exact Nat.ne_of_gt (Nat.div_pos
      (Nat.le_of_dvd (Nat.pos_of_ne_zero hD) (Nat.gcd_dvd_right _ _))
      (Nat.pos_of_ne_zero hg0))
  · rw [hg]
    show (((whole * 10 ^ k + frac) / Nat.gcd (whole * 10 ^ k + frac) (10 ^ k) : Nat) : Int).natAbs.Coprime _
    rw [Int.natAbs_ofNat]
    exact Nat.coprime_div_gcd_div_gcd (Nat.pos_of_ne_zero hg0)

/-- `leadSeg needle hay` holds when `needle` is an initial segment of `hay`. -/
def leadSeg : List Char → List Char → Bool
  | [], _ => true
  | _ :: _, [] => false
  | a :: as, b :: bs => a = b && leadSeg as bs

/-- Substring containment, modelling Python `needle in hay`. -/
def seqContains : List Char → List Char → Bool
  | hay, needle =>
    leadSeg needle hay ||
      (match hay with
       | [] => false
       | _ :: t => seqContains t needle)

/-- Python `text.split('\n')` (empty pieces preserved). -/
def splitLines (cs : List Char) : List (List Char) := cs.splitOn '\n'

/-- Python `s.strip()`: drop leading and trailing whitespace. -/
def pyStrip (cs : List Char) : List Char :=
  ((cs.dropWhile isPySpace).reverse.dropWhile isPySpace).reverse

/-- Python `s.split()`, with explicit fuel (one unit per consumed head
character, so `cs.length` always suffices): split on whitespace runs,
dropping empty pieces. -/
def pyWordsAux : Nat → List Char → List (List Char)
  | 0, _ => []
  | _ + 1, [] => []
  | fuel + 1, c :: cs =>
    if isPySpace c then pyWordsAux fuel cs
    else (c :: cs.takeWhile (fun d => !isPySpace d))
           :: pyWordsAux fuel (cs.dropWhile (fun d => !isPySpace d))

/-- Python `s.split()`. -/
def pyWords (cs : List Char) : List (List Char) := pyWordsAux cs.length cs

/-- Collapse of whitespace runs to a single space with explicit fuel,
modelling `re.sub(r'\s+', ' ', s)`. -/
def normSpacesAux : Nat → List Char → List Char
  | 0, _ => []
  | _ + 1, [] => []
  | fuel + 1, c :: cs =>
    if isPySpace c then ' ' :: normSpacesAux fuel (cs.dropWhile isPySpace)
    else c :: normSpacesAux fuel cs

/-- `re.sub(r'\s+', ' ', s)`. -/
def normSpaces (cs : List Char) : List Char := normSpacesAux cs.length cs

/-! ## Keyword tables (constructor of `EnhancedOCREngine`) -/

/-- `self.total_keywords` of the source, verbatim. -/
def totalKeywords : List (List Char) :=
  ["total", "grand total", "net amount", "amount due", "amount payable",
   "bill amount", "final amount", "total amount", "total payable",
   "you paid", "paid amount", "payment", "balance", "net total",
   "amount paid", "total paid", "invoice total", "order total",
   "subtotal", "sub total", "charged", "debit", "credit",
   "transferred", "received", "deposited", "withdrawn"].map String.toList

/-- `self.ignore_keywords` of the source, verbatim. -/
def ignoreKeywords : List (List Char) :=
  ["cgst", "sgst", "igst", "gst", "tax", "vat", "service charge",
   "delivery charge", "discount", "offer", "saved", "savings",
   "tip", "cashback", "wallet", "points", "rewards",
   "packing charge", "convenience fee", "handling charge",
   "item", "qty", "quantity", "price", "rate", "mrp",
   "phone", "mobile", "email", "address", "pincode", "gstin"].map String.toList

/-! ## Amount cleaning (`_clean_amount`) -/

/-- Characters kept by `re.sub(r'[^\d,.]', '', s)`. -/
def isAmtChar (c : Char) : Bool := c.isDigit || c = ',' || c = '.'

/-- The test `re.match(r'^\d+(?:,\d{3})*(?:\.\d{2})?$', last_part.replace(',', ''))`
of `_clean_amount`.  Because the commas are removed before matching, the
pattern accepts exactly a nonempty digit run optionally followed by a dot and
two digits. -/
def lastPartOK (lp : List Char) : Bool :=
  let s := lp.filter (fun c => c ≠ ',')
  let ds := s.takeWhile Char.isDigit
  let rest := s.dropWhile Char.isDigit
  (!ds.isEmpty) &&
    (match rest with
     | [] => true
     | ['.', d1, d2] => d1.isDigit && d2.isDigit
     | _ => false)

/-- Python `float` applied to the cleaned string (digits and at most one dot
after the preceding normalisation steps); other shapes yield `none`
(`ValueError`, caught by `_clean_amount`). -/
def parseFloat (cs : List Char) : Option ℚ :=
  match cs.dropWhile Char.isDigit with
  | [] =>
    if (cs.takeWhile Char.isDigit).isEmpty then none
    else some (natOfDigits (cs.takeWhile Char.isDigit) : ℚ)
  | '.' :: fp =>
    if fp.all Char.isDigit && (!(cs.takeWhile Char.isDigit).isEmpty || !fp.isEmpty) then
      some (decimalToRat (natOfDigits (cs.takeWhile Char.isDigit)) (natOfDigits fp) fp.length)
    else none
  | _ => none

/-- `EnhancedOCREngine._clean_amount`.  (The `parts[-1]` access of the source
raises an uncaught `IndexError` on an all-whitespace argument; that argument
never arises from the engine's regex captures, and the model returns `none`
there.) -/
def cleanAmount (cs : List Char) : Option ℚ :=
  let cs1 :=
    if cs.contains ' ' then
      match (pyWords cs).getLast? with
      | some lp => if lastPartOK lp then lp else cs
      | none => cs
    else cs
  let c2 := cs1.filter isAmtChar
  let c3 := c2.filter (fun c => c ≠ ',')
  let c4 :=
    if c3.count '.' > 1 then
      (c3.splitOn '.').dropLast.flatten ++ '.' :: (c3.splitOn '.').getLastD []
    else c3
  parseFloat c4

/-! ## The four amount-shape patterns (`self.amount_patterns`)

1. `(?:Rs\.?|₹|INR|rs\.?)\s*(\d{1,3}(?:,\d{3})*(?:\.\d{2})?)`
2. `(\d{1,3}(?:,\d{3})*(?:\.\d{2})?)\s*(?:Rs\.?|₹|INR)`
3. `\b(\d{1,3}(?:,\d{3})+\.\d{2})\b`
4. `\b(\d{4,})\b`

all applied with `re.IGNORECASE` by `re.findall`. -/

/-- Candidates for a bounded greedy digit run `\d{lo,hi}` at the head of
`cs`, in the backtracking order of the regex engine (longest first).
Each candidate is the pair (consumed characters, remaining characters). -/
def digitRunCands (lo hi : Nat) (cs : List Char) : List (List Char × List Char) :=
  let run := (cs.takeWhile Char.isDigit).length
  let top := min hi run
  if top < lo then []
  else (List.range (top + 1 - lo)).map (fun i => (cs.take (top - i), cs.drop (top - i)))

/-- Candidates for `(?:,\d{3})*` at the head of `cs`, greedy first. -/
def commaGroupCands : List Char → List (List Char × List Char)
  | ',' :: d1 :: d2 :: d3 :: rest =>
    if d1.isDigit && d2.isDigit && d3.isDigit then
      ((commaGroupCands rest).map (fun p => (',' :: d1 :: d2 :: d3 :: p.1, p.2)))
        ++ [([], ',' :: d1 :: d2 :: d3 :: rest)]
    else [([], ',' :: d1 :: d2 :: d3 :: rest)]
  | cs => [([], cs)]

/-- Candidates for `(?:\.\d{2})?` at the head of `cs`, greedy first. -/
def dotCands : List Char → List (List Char × List Char)
  | '.' :: d1 :: d2 :: rest =>
    if d1.isDigit && d2.isDigit then
      [(['.', d1, d2], rest), ([], '.' :: d1 :: d2 :: rest)]
    else [([], '.' :: d1 :: d2 :: rest)]
  | cs => [([], cs)]

/-- All ways the capture group `\d{1,3}(?:,\d{3})*(?:\.\d{2})?` can match at
the head of `cs`, in regex backtracking order. -/
def amountCoreCands (cs : List Char) : List (List Char × List Char) :=
  (digitRunCands 1 3 cs).flatMap (fun p =>
    (commaGroupCands p.2).flatMap (fun q =>
      (dotCands q.2).map (fun r => (p.1 ++ q.1 ++ r.1, r.2))))

/-- The currency-marker alternation `(?:Rs\.?|₹|INR)` (case-insensitive;
the extra `rs\.?` alternative of pattern 1 is redundant under
`re.IGNORECASE`).  Returns the characters remaining after the marker. -/
def currencyMark : List Char → Option (List Char)
  | c1 :: c2 :: c3 :: rest =>
    if lc c1 = 'r' && lc c2 = 's' then some (if c3 = '.' then rest else c3 :: rest)
    else if c1 = '₹' then some (c2 :: c3 :: rest)
    else if lc c1 = 'i' && lc c2 = 'n' && lc c3 = 'r' then some rest
    else none
  | [c1, c2] =>
    if lc c1 = 'r' && lc c2 = 's' then some []
    else if c1 = '₹' then some [c2] else none
  | [c1] => if c1 = '₹' then some [] else none
  | [] => none

/-- Word-boundary test on the left of a match position (`\b` before a digit). -/
def prevNonWord : Option Char → Bool
  | none => true
  | some c => !isWordChar c

/-- Word-boundary test on the right of a match ending in a digit. -/
def nextNonWord : List Char → Bool
  | [] => true
  | c :: _ => !isWordChar c

/-- Attempt of amount pattern 1 at the current position.  Result: the pair
(group capture, remaining characters after the whole match). -/
def p1At (_prev : Option Char) (cs : List Char) : Option (List Char × List Char) :=
  (currencyMark cs).bind fun r1 => (amountCoreCands (r1.dropWhile isPySpace)).head?

/-- Attempt of amount pattern 2 at the current position. -/
def p2At (_prev : Option Char) (cs : List Char) : Option (List Char × List Char) :=
  (amountCoreCands cs).findSome? fun p =>
    (currencyMark (p.2.dropWhile isPySpace)).map fun r2 => (p.1, r2)

/-- The mandatory `\.\d{2}` tail of pattern 3. -/
def dotTwo : List Char → Option (List Char × List Char)
  | '.' :: d1 :: d2 :: rest =>
    if d1.isDigit && d2.isDigit then some (['.', d1, d2], rest) else none
  | _ => none

/-- Attempt of amount pattern 3 at the current position. -/
def p3At (prev : Option Char) (cs : List Char) : Option (List Char × List Char) :=
  if prevNonWord prev then
    ((digitRunCands 1 3 cs).flatMap (fun p =>
        ((commaGroupCands p.2).filter (fun q => !q.1.isEmpty)).filterMap (fun q =>
          (dotTwo q.2).map (fun r => (p.1 ++ q.1 ++ r.1, r.2))))).findSome?
      (fun m => if nextNonWord m.2 then some m else none)
  else none

/-- Attempt of amount pattern 4 at the current position. -/
def p4At (prev : Option Char) (cs : List Char) : Option (List Char × List Char) :=
  if prevNonWord prev then
    let run := cs.takeWhile Char.isDigit
    if run.length ≥ 4 && nextNonWord (cs.drop run.length) then
      some (run, cs.drop run.length)
    else none
  else none

/-! ## The `re.findall` / `re.search` drivers -/

/-- Left-to-right non-overlapping scan, modelling `re.findall` with one
capture group: at each position the attempt function receives the preceding
character (for `\b`) and the remaining text; on a match, scanning resumes
after the matched characters. -/
def findAllAux (pAt : Option Char → List Char → Option (List Char × List Char)) :
    Nat → Option Char → List Char → List (List Char)
  | 0, _, _ => []
  | _ + 1, _, [] => []
  | fuel + 1, prev, c :: cs =>
    match pAt prev (c :: cs) with
    | some (cap, rest) =>
      if rest.length < (c :: cs).length then
        cap :: findAllAux pAt fuel
          (((c :: cs).take ((c :: cs).length - rest.length)).getLast?) rest
      else [cap]
    | none => findAllAux pAt fuel (some c) cs

/-- `re.findall(pattern, cs)` for a one-group pattern given by `pAt`. -/
def findAll (pAt : Option Char → List Char → Option (List Char × List Char))
    (cs : List Char) : List (List Char) :=
  findAllAux pAt (cs.length + 1) none cs

/-- Left-to-right scan for the first match, modelling `re.search`. -/
def searchAux (pAt : Option Char → List Char → Option (List Char × List Char)) :
    Nat → Option Char → List Char → Option (List Char × List Char)
  | 0, _, _ => none
  | _ + 1, prev, [] => pAt prev []
  | fuel + 1, prev, c :: cs =>
    match pAt prev (c :: cs) with
    | some m => some m
    | none => searchAux pAt fuel (some c) cs

/-- `re.search(pattern, cs)`; the result pair is (matched text, rest). -/
def search (pAt : Option Char → List Char → Option (List Char × List Char))
    (cs : List Char) : Option (List Char × List Char) :=
  searchAux pAt (cs.length + 1) none cs

/-- All group captures of the four amount patterns on one line, in the order
produced by the `for pattern in self.amount_patterns` loop. -/
def lineAmountMatches (line : List Char) : List (List Char) :=
  findAll p1At line ++ findAll p2At line ++ findAll p3At line ++ findAll p4At line

/-! ## `extract_total_amount` -/

/-- One amount candidate (`{'amount': ..., 'priority': ...}` of the source;
the unused `line` and `line_index` fields are omitted). -/
structure Cand where
  amount : ℚ
  priority : Nat
deriving DecidableEq, Repr

/-- Strategy-1 candidates contributed by one line (given the following line,
if any): keyword-gated same-line matches at priority 100/200, then next-line
matches at priority 90. -/
def lineCands (line : List Char) (next? : Option (List Char)) : List Cand :=
  if (totalKeywords.any fun k => seqContains (line.map lc) k)
      && !(ignoreKeywords.any fun k => seqContains (line.map lc) k) then
    ((lineAmountMatches line).filterMap cleanAmount).map
        (fun a => ⟨a, if seqContains (line.map lc) ("grand total".toList)
                        || seqContains (line.map lc) ("net amount".toList)
                      then 200 else 100⟩)
      ++ (match next? with
          | some nl => ((lineAmountMatches nl).filterMap cleanAmount).map (fun a => ⟨a, 90⟩)
          | none => [])
  else []

/-- Strategy 1: keyword-adjacent amounts, same and next line. -/
def strat1 : List (List Char) → List Cand
  | [] => []
  | line :: rest => lineCands line rest.head? ++ strat1 rest

/-- Keyword alternation head of a bank pattern: the remainders after each
alternative that applies, in alternation order (case-insensitive). -/
def kwAltCands (kws : List (List Char)) (cs : List Char) : List (List Char) :=
  kws.filterMap fun k =>
    if (cs.take k.length).map lc = k && k.length ≤ cs.length then
      some (cs.drop k.length)
    else none

/-- Candidates of the optional marker `(?:Rs\.?|₹)?` of the bank patterns,
in backtracking order (marker present greedily, then absent). -/
def bankMarkerCands (cs : List Char) : List (List Char) :=
  (match cs with
   | c1 :: c2 :: rest =>
     if lc c1 = 'r' && lc c2 = 's' then
       match rest with
       | '.' :: r => [r, rest]
       | _ => [rest]
     else if c1 = '₹' then [c2 :: rest] else []
   | [c1] => if c1 = '₹' then [[]] else []
   | [] => []) ++ [cs]

/-- The `\s*:?\s*(?:Rs\.?|₹)?\s*(\d{1,3}(?:,\d{3})*(?:\.\d{2})?)` tail shared
by the bank patterns. -/
def bankTail (cs : List Char) : Option (List Char × List Char) :=
  let r1 := cs.dropWhile isPySpace
  let r2 := match r1 with | ':' :: t => t | _ => r1
  let r3 := r2.dropWhile isPySpace
  (bankMarkerCands r3).findSome? fun r4 =>
    (amountCoreCands (r4.dropWhile isPySpace)).head?

/-- Attempt of a bank pattern (`self.bank_patterns`) at the current position. -/
def bankAt (kws : List (List Char)) (_prev : Option Char) (cs : List Char) :
    Option (List Char × List Char) :=
  (kwAltCands kws cs).findSome? bankTail

/-- Alternatives of the `credit` bank pattern. -/
def creditKws : List (List Char) :=
  ["cr", "credit", "credited", "deposit", "received"].map String.toList

/-- Alternatives of the `debit` bank pattern. -/
def debitKws : List (List Char) :=
  ["dr", "debit", "debited", "withdraw", "withdrawn", "paid"].map String.toList

/-- Strategy 2: bank-statement credit/debit patterns over the whole text
(the `balance` pattern is skipped), priority 80. -/
def strat2 (text : List Char) : List Cand :=
  ((findAll (bankAt creditKws) text).filterMap cleanAmount).map (fun a => ⟨a, 80⟩)
    ++ ((findAll (bankAt debitKws) text).filterMap cleanAmount).map (fun a => ⟨a, 80⟩)

/-- Strategy 3 amount pool: amounts over all lines without ignore keywords,
kept when `> 1` and not a whole number in the year range `[2000, 2100]`. -/
def strat3Amounts (lines : List (List Char)) : List ℚ :=
  lines.flatMap fun line =>
    if ignoreKeywords.any (fun k => seqContains (line.map lc) k) then []
    else
      (lineAmountMatches line).filterMap fun m =>
        match cleanAmount m with
        | some a =>
          if a > 1 then
            if a.den = 1 && 2000 ≤ a && a ≤ 2100 then none else some a
          else none
        | none => none

/-- Strategy 3: the largest surviving amount becomes one candidate at
priority 50. -/
def strat3 (lines : List (List Char)) : List Cand :=
  match strat3Amounts lines with
  | [] => []
  | a :: as => [⟨as.foldl max a, 50⟩]

/-- The full candidate list of `extract_total_amount` (each later strategy
runs only when all earlier ones produced no candidate). -/
def allCandidates (text : List Char) : List Cand :=
  let lines := splitLines text
  let c1 := strat1 lines
  let c2 := if c1.isEmpty then strat2 text else c1
  if c2.isEmpty then strat3 lines else c2

/-- Stable insertion of a candidate into a list sorted by decreasing
priority (equal priorities keep discovery order). -/
def insertDesc (c : Cand) : List Cand → List Cand
  | [] => [c]
  | d :: ds => if d.priority > c.priority then d :: insertDesc c ds else c :: d :: ds

/-- Stable sort by decreasing priority, modelling
`candidates.sort(key=lambda x: x['priority'], reverse=True)`. -/
def sortCandsDesc : List Cand → List Cand
  | [] => []
  | c :: cs => insertDesc c (sortCandsDesc cs)

/-- `EnhancedOCREngine.extract_total_amount`. -/
def extract_total_amount (text : List Char) : Option ℚ :=
  match sortCandsDesc (allCandidates text) with
  | [] => none
  | c :: _ => some c.amount

/-! ## Dates (`extract_date`)

The four structural patterns of `self.date_patterns` are searched with
`re.IGNORECASE`; the first match is then run through the ten concrete
`datetime.strptime` formats; the first format that parses wins and is
rendered with `strftime('%Y-%m-%d')`.  The `strptime` model follows
CPython `_strptime`: `%d ↦ (3[01]|[12]\d|0[1-9]|[1-9])`,
`%m ↦ (1[0-2]|0[1-9]|[1-9])`, `%Y ↦ \d{4}`, `%y ↦ \d{2}` (mapped to
1969–2068), month names case-insensitive, format whitespace `↦ \s+`,
anchored full-string match, then calendar validation by the
`datetime` constructor. -/

/-- A calendar date as validated by `datetime`. -/
structure PyDate where
  year : Nat
  month : Nat
  day : Nat
deriving DecidableEq, Repr

/-- Gregorian leap-year rule used by `datetime`. -/
def isLeap (y : Nat) : Bool := (y % 4 = 0 && y % 100 ≠ 0) || y % 400 = 0

/-- Length of a month as validated by `datetime`. -/
def daysInMonth (y m : Nat) : Nat :=
  if m = 2 then (if isLeap y then 29 else 28)
  else if m = 4 || m = 6 || m = 9 || m = 11 then 30 else 31

/-- The `datetime(year, month, day)` constructor: validity check. -/
def mkDate (y m d : Nat) : Option PyDate :=
  if 1 ≤ y && y ≤ 9999 && 1 ≤ m && m ≤ 12 && 1 ≤ d && d ≤ daysInMonth y m then
    some ⟨y, m, d⟩
  else none

/-- Candidates of the `%d` token `(3[01]|[12]\d|0[1-9]|[1-9])`, in
alternation order. -/
def dayTokCands (cs : List Char) : List (Nat × List Char) :=
  (match cs with
   | '3' :: c :: r => if c = '0' || c = '1' then [(30 + dv c, r)] else []
   | _ => []) ++
  (match cs with
   | c1 :: c2 :: r =>
     if (c1 = '1' || c1 = '2') && c2.isDigit then [(10 * dv c1 + dv c2, r)] else []
   | _ => []) ++
  (match cs with
   | '0' :: c :: r => if '1' ≤ c && c ≤ '9' then [(dv c, r)] else []
   | _ => []) ++
  (match cs with
   | c :: r => if '1' ≤ c && c ≤ '9' then [(dv c, r)] else []
   | _ => [])

/-- Candidates of the `%m` token `(1[0-2]|0[1-9]|[1-9])`, in
alternation order. -/
def monthTokCands (cs : List Char) : List (Nat × List Char) :=
  (match cs with
   | '1' :: c :: r => if '0' ≤ c && c ≤ '2' then [(10 + dv c, r)] else []
   | _ => []) ++
  (match cs with
   | '0' :: c :: r => if '1' ≤ c && c ≤ '9' then [(dv c, r)] else []
   | _ => []) ++
  (match cs with
   | c :: r => if '1' ≤ c && c ≤ '9' then [(dv c, r)] else []
   | _ => [])

/-- Exactly `n` digits (`%Y`, `%y`, `\d{4}`). -/
def exactDigits (n : Nat) (cs : List Char) : Option (Nat × List Char) :=
  let ds := cs.take n
  if ds.length = n && ds.all Char.isDigit then some (natOfDigits ds, cs.drop n) else none

/-- The `%y` two-digit-year mapping of `_strptime`. -/
def year2Map (v : Nat) : Nat := if v ≤ 68 then 2000 + v else 1900 + v

/-- A single literal character of a format. -/
def litCh (c : Char) : List Char → Option (List Char)
  | c' :: r => if c' = c then some r else none
  | _ => none

/-- Format whitespace, compiled by `_strptime` to `\s+`. -/
def spaceRun1 (cs : List Char) : Option (List Char) :=
  match cs with
  | c :: _ => if isPySpace c then some (cs.dropWhile isPySpace) else none
  | [] => none

/-- Abbreviated month names (`%b` and the structural patterns). -/
def monthAbbr : List (List Char) :=
  ["Jan", "Feb", "Mar", "Apr", "May", "Jun",
   "Jul", "Aug", "Sep", "Oct", "Nov", "Dec"].map String.toList

/-- Full month names (`%B`). -/
def monthFull : List (List Char) :=
  ["January", "February", "March", "April", "May", "June", "July",
   "August", "September", "October", "November", "December"].map String.toList

/-- Month-name candidates (case-insensitive, as in `_strptime`):
month number and remaining characters. -/
def monthNameCands (names : List (List Char)) (cs : List Char) : List (Nat × List Char) :=
  (List.range names.length).filterMap fun i =>
    let nm := names.getD i []
    if (cs.take nm.length).map lc = nm.map lc && nm.length ≤ cs.length then
      some (i + 1, cs.drop nm.length)
    else none

/-- Structural (regex) part of `strptime` for `%d<sep>%m<sep>%Y` or `…%y`:
the first full-string token split, in backtracking order.  Calendar
validation happens afterwards, as in CPython (the regex commits before
`datetime` validates). -/
def matchDMYnum (sep : Char) (yearLen2 : Bool) (cs : List Char) : Option (Nat × Nat × Nat) :=
  (dayTokCands cs).findSome? fun p =>
    (litCh sep p.2).bind fun r2 =>
      (monthTokCands r2).findSome? fun q =>
        (litCh sep q.2).bind fun r4 =>
          match (if yearLen2 then (exactDigits 2 r4).map (fun w => (year2Map w.1, w.2))
                 else exactDigits 4 r4) with
          | some (y, r5) => if r5.isEmpty then some (y, q.1, p.1) else none
          | none => none

/-- Structural part of `strptime` for `%Y<sep>%m<sep>%d`. -/
def matchYMDnum (sep : Char) (cs : List Char) : Option (Nat × Nat × Nat) :=
  (exactDigits 4 cs).bind fun w =>
    (litCh sep w.2).bind fun r2 =>
      (monthTokCands r2).findSome? fun q =>
        (litCh sep q.2).bind fun r4 =>
          (dayTokCands r4).findSome? fun p =>
            if p.2.isEmpty then some (w.1, q.1, p.1) else none

/-- Structural part of `strptime` for `%d %b %Y` / `%d %B %Y`. -/
def matchDMonY (names : List (List Char)) (cs : List Char) : Option (Nat × Nat × Nat) :=
  (dayTokCands cs).findSome? fun p =>
    (spaceRun1 p.2).bind fun r2 =>
      (monthNameCands names r2).findSome? fun q =>
        (spaceRun1 q.2).bind fun r4 =>
          (exactDigits 4 r4).bind fun w =>
            if w.2.isEmpty then some (w.1, q.1, p.1) else none

/-- Structural part of `strptime` for `%b %d, %Y` / `%B %d, %Y`
(the comma is a required literal). -/
def matchMonDY (names : List (List Char)) (cs : List Char) : Option (Nat × Nat × Nat) :=
  (monthNameCands names cs).findSome? fun q =>
    (spaceRun1 q.2).bind fun r2 =>
      (dayTokCands r2).findSome? fun p =>
        (litCh ',' p.2).bind fun r4 =>
          (spaceRun1 r4).bind fun r5 =>
            (exactDigits 4 r5).bind fun w =>
              if w.2.isEmpty then some (w.1, q.1, p.1) else none

/-- The ten concrete `date_formats` of `extract_date`, in source order;
each returns a validated date or `none` (a caught `ValueError`). -/
def dateFormats : List (List Char → Option (Nat × Nat × Nat)) :=
  [matchDMYnum '/' false, matchDMYnum '-' false,
   matchDMYnum '/' true, matchDMYnum '-' true,
   matchYMDnum '-', matchYMDnum '/',
   matchDMonY monthAbbr, matchDMonY monthFull,
   matchMonDY monthAbbr, matchMonDY monthFull]

/-- First format that parses the matched substring into a valid date. -/
def tryFormats (s : List Char) : Option PyDate :=
  dateFormats.findSome? fun f => (f s).bind fun t => mkDate t.1 t.2.1 t.2.2

/-- Character of a single decimal digit. -/
def digitChar (n : Nat) : Char := Char.ofNat ('0'.toNat + n)

/-- Two-digit zero-padded rendering (`%m`, `%d` of `strftime`). -/
def pad2 (n : Nat) : List Char := [digitChar (n / 10 % 10), digitChar (n % 10)]

/-- Decimal numeral of a natural number (most significant digit first),
with explicit fuel (`n` itself always suffices). -/
def natToDigitsAux : Nat → Nat → List Char
  | 0, n => [digitChar n]
  | fuel + 1, n => if n < 10 then [digitChar n] else natToDigitsAux fuel (n / 10) ++ [digitChar (n % 10)]

/-- Decimal numeral of a natural number (most significant digit first). -/
def natToDigits (n : Nat) : List Char := natToDigitsAux n n

/-- `parsed_date.strftime('%Y-%m-%d')`.  CPython renders `%Y` through the
C library without zero-padding (checked on the reference interpreter:
year 42 gives `42`, not `0042`), so the year is a plain numeral. -/
def formatISO (d : PyDate) : List Char :=
  natToDigits d.year ++ '-' :: pad2 d.month ++ '-' :: pad2 d.day

/-- A `[slash dash]` separator of the structural patterns. -/
def sepCand : List Char → Option (Char × List Char)
  | c :: r => if c = '/' || c = '-' then some (c, r) else none
  | _ => none

/-- Attempt of structural pattern `\d{1,2}[slash dash]\d{1,2}[slash dash]\d{2,4}`. -/
def dp1At (_ci : Bool) (_prev : Option Char) (cs : List Char) : Option (List Char × List Char) :=
  (digitRunCands 1 2 cs).findSome? fun p =>
    (sepCand p.2).bind fun s1 =>
      (digitRunCands 1 2 s1.2).findSome? fun q =>
        (sepCand q.2).bind fun s2 =>
          ((digitRunCands 2 4 s2.2).head?).map fun w =>
            (p.1 ++ s1.1 :: q.1 ++ s2.1 :: w.1, w.2)

/-- Attempt of structural pattern `\d{4}[slash dash]\d{1,2}[slash dash]\d{1,2}`. -/
def dp2At (_ci : Bool) (_prev : Option Char) (cs : List Char) : Option (List Char × List Char) :=
  if (cs.take 4).length = 4 && (cs.take 4).all Char.isDigit then
    (sepCand (cs.drop 4)).bind fun s1 =>
      (digitRunCands 1 2 s1.2).findSome? fun q =>
        (sepCand q.2).bind fun s2 =>
          ((digitRunCands 1 2 s2.2).head?).map fun w =>
            (cs.take 4 ++ s1.1 :: q.1 ++ s2.1 :: w.1, w.2)
  else none

/-- Month-name alternation of the structural patterns
(`Jan|Feb|…|Dec`, exact case unless `ci`). -/
def monthLitCands (ci : Bool) (cs : List Char) : List (List Char × List Char) :=
  monthAbbr.filterMap fun nm =>
    let pre := cs.take 3
    if pre.length = 3 && (if ci then pre.map lc = nm.map lc else pre = nm) then
      some (pre, cs.drop 3)
    else none

/-- The `[a-z]*` tail of a month name (letters of both cases under
`re.IGNORECASE`). -/
def letterRun (ci : Bool) (cs : List Char) : List Char × List Char :=
  let p : Char → Bool := if ci then Char.isAlpha else fun c => 'a' ≤ c && c ≤ 'z'
  (cs.takeWhile p, cs.dropWhile p)

/-- Mandatory whitespace `\s+` inside a structural pattern:
(consumed, rest). -/
def spaceRunCand (cs : List Char) : Option (List Char × List Char) :=
  match cs with
  | c :: _ => if isPySpace c then some (cs.takeWhile isPySpace, cs.dropWhile isPySpace) else none
  | [] => none

/-- Attempt of structural pattern
`\d{1,2}\s+(?:Jan|…|Dec)[a-z]*\s+\d{2,4}`. -/
def dp3At (ci : Bool) (_prev : Option Char) (cs : List Char) : Option (List Char × List Char) :=
  (digitRunCands 1 2 cs).findSome? fun p =>
    (spaceRunCand p.2).bind fun s1 =>
      (monthLitCands ci s1.2).findSome? fun m =>
        let lr := letterRun ci m.2
        (spaceRunCand lr.2).bind fun s2 =>
          ((digitRunCands 2 4 s2.2).head?).map fun w =>
            (p.1 ++ s1.1 ++ m.1 ++ lr.1 ++ s2.1 ++ w.1, w.2)

/-- Attempt of structural pattern
`(?:Jan|…|Dec)[a-z]*\s+\d{1,2},?\s+\d{4}`. -/
def dp4At (ci : Bool) (_prev : Option Char) (cs : List Char) : Option (List Char × List Char) :=
  (monthLitCands ci cs).findSome? fun m =>
    let lr := letterRun ci m.2
    (spaceRunCand lr.2).bind fun s1 =>
      (digitRunCands 1 2 s1.2).findSome? fun p =>
        ((match p.2 with
          | ',' :: r => [([','], r), ([], p.2)]
          | _ => [([], p.2)] : List (List Char × List Char))).findSome? fun co =>
          (spaceRunCand co.2).bind fun s2 =>
            (exactDigits 4 s2.2).map fun w =>
              (m.1 ++ lr.1 ++ s1.1 ++ p.1 ++ co.1 ++ s2.1 ++ s2.2.take 4, w.2)

/-- The four structural date matchers, in `self.date_patterns` order. -/
def dpAts (ci : Bool) : List (Option Char → List Char → Option (List Char × List Char)) :=
  [dp1At ci, dp2At ci, dp3At ci, dp4At ci]

/-- The date found by `extract_date` before the today-fallback: first
pattern whose first match parses under some format, rendered
`%Y-%m-%d`.  A match that parses under no format falls through to the
next pattern, exactly as the source's nested loops do. -/
def dateFromText (text : List Char) : Option (List Char) :=
  (dpAts true).findSome? fun pAt =>
    (search pAt text).bind fun m => (tryFormats m.1).map formatISO

/-- `EnhancedOCREngine.extract_date`; `today` stands for
`datetime.now().strftime('%Y-%m-%d')`. -/
def extract_date (text today : List Char) : List Char :=
  (dateFromText text).getD today

/-! ## Description (`extract_description`) -/

/-- `known_merchants` of the source, verbatim. -/
def knownMerchants : List (List Char) :=
  ["Zomato", "Swiggy", "Uber", "Ola", "Amazon", "Flipkart", "Myntra", "Ajio",
   "Starbucks", "McDonalds", "KFC", "Dominos", "Pizza Hut", "Burger King",
   "Subway", "Dmart", "BigBasket", "Blinkit", "Zepto", "Dunzo"].map String.toList

/-- Label words of merchant pattern 1. -/
def mLabelWords1 : List (List Char) :=
  ["from", "to", "merchant", "vendor", "seller", "store"].map String.toList

/-- Label words of merchant pattern 2. -/
def mLabelWords2 : List (List Char) :=
  ["paid to", "received from"].map String.toList

/-- The character class `[A-Za-z0-9\s&.-]` of the merchant patterns. -/
def mClass (c : Char) : Bool :=
  c.isAlpha || c.isDigit || isPySpace c || c = '&' || c = '.' || c = '-'

/-- Attempt of merchant patterns 1/2:
`(?:label|…)[\s:]+([A-Za-z0-9\s&.-]+)` with `re.IGNORECASE`
(backtracking over the greedy `[\s:]+` until the group can start). -/
def mp12At (words : List (List Char)) (_prev : Option Char) (cs : List Char) :
    Option (List Char × List Char) :=
  (kwAltCands words cs).findSome? fun r1 =>
    let sepRun := (r1.takeWhile (fun c => isPySpace c || c = ':')).length
    (List.range sepRun).findSome? fun i =>
      let r2 := r1.drop (sepRun - i)
      let g := r2.takeWhile mClass
      if g.isEmpty then none else some (g, r2.drop g.length)

/-- Attempt of merchant pattern 3: `^([A-Z][A-Za-z0-9\s&.-]{2,30})` with
`re.IGNORECASE | re.MULTILINE` (so `[A-Z]` matches any ASCII letter and
`^` anchors at the start of any line). -/
def mp3At (prev : Option Char) (cs : List Char) : Option (List Char × List Char) :=
  if prev = none || prev = some '\n' then
    match cs with
    | c1 :: rest =>
      if c1.isAlpha then
        let run := rest.takeWhile mClass
        let g := run.take 30
        if g.length ≥ 2 then some (c1 :: g, rest.drop g.length) else none
      else none
    | [] => none
  else none

/-- Merchant candidate of strategy 2 of `extract_description`: per
pattern, the first match is whitespace-normalised and accepted only at
length 4–49. -/
def merchantFromPats (text : List Char) : Option (List Char) :=
  [mp12At mLabelWords1, mp12At mLabelWords2, mp3At].findSome? fun pAt =>
    (search pAt text).bind fun m =>
      let merchant := normSpaces (pyStrip m.1)
      if 3 < merchant.length && merchant.length < 50 then some merchant else none

/-- `any(re.search(pattern, line) for pattern in self.date_patterns)`
(no `re.IGNORECASE` here, unlike `extract_date`). -/
def dateShapeInLine (line : List Char) : Bool :=
  (dpAts false).any fun pAt => (search pAt line).isSome

/-- Strategy 3 of `extract_description`: first clean line of the first
five stripped, non-empty lines. -/
def descLoop : List (List Char) → Option (List Char)
  | [] => none
  | line :: rest =>
    if line.length < 4 || (!line.isEmpty && line.all Char.isDigit) then descLoop rest
    else if dateShapeInLine line && line.length < 15 then descLoop rest
    else if ignoreKeywords.any (fun k => seqContains (line.map lc) k) then descLoop rest
    else
      let cleaned := normSpaces line
      if cleaned.length > 4 then some (cleaned.take 100) else descLoop rest

/-- `transaction_types` of strategy 4, in dict insertion order. -/
def txnTypeLabels : List (List Char × List Char) :=
  [("payment", "Payment Transaction"), ("transfer", "Fund Transfer"),
   ("deposit", "Deposit"), ("withdrawal", "Withdrawal"),
   ("purchase", "Purchase"), ("refund", "Refund"),
   ("food", "Food Order"), ("cab", "Cab Service"),
   ("trip", "Trip"), ("ride", "Ride")].map fun p => (p.1.toList, p.2.toList)

/-- `EnhancedOCREngine.extract_description` (`lines` is the list of
stripped non-empty lines; only its first five reach strategy 3). -/
def extract_description (text : List Char) : List Char :=
  match knownMerchants.find? (fun m => seqContains (text.map lc) (m.map lc)) with
  | some m => m
  | none =>
    match merchantFromPats text with
    | some m => m
    | none =>
      match descLoop ((((splitLines text).map pyStrip).filter (fun l => !l.isEmpty)).take 5) with
      | some d => d
      | none =>
        match txnTypeLabels.findSome?
            (fun p => if seqContains (text.map lc) p.1 then some p.2 else none) with
        | some l => l
        | none => "Transaction".toList

/-! ## Income/expense classification (`detect_transaction_type`) -/

/-- `income_keywords` of the source, verbatim. -/
def incomeKeywords : List (List Char) :=
  ["credit", "credited", "received", "deposit", "deposited",
   "salary", "payment received", "refund", "cashback",
   "transferred to your account", "added to", "income"].map String.toList

/-- `expense_keywords` of the source, verbatim. -/
def expenseKeywords : List (List Char) :=
  ["debit", "debited", "paid", "payment", "purchase",
   "withdrawn", "transferred from your account", "expense",
   "bill", "invoice", "order", "booking"].map String.toList

/-- Number of keywords of `kws` present in `tl` as substrings. -/
def kwScore (kws : List (List Char)) (tl : List Char) : Nat :=
  kws.countP fun k => seqContains tl k

/-- `EnhancedOCREngine.detect_transaction_type` (the description argument
is lower-cased and then unused in the source; kept for fidelity). -/
def detect_transaction_type (text _description : List Char) : List Char :=
  if kwScore incomeKeywords (text.map lc) > kwScore expenseKeywords (text.map lc)
  then "income".toList
  else "expense".toList

/-! ## The assembled pipeline (`extract_transactions` at text level) -/

/-- One extracted transaction record. -/
structure Txn where
  date : List Char
  description : List Char
  amount : ℚ
  ttype : List Char
  raw_text : List Char
deriving DecidableEq, Repr

/-- `EnhancedOCREngine.extract_transactions` from the final recognized
text onwards (the recognition passes themselves are the external OCR
boundary): the guard `if not text or len(text.strip()) < 5`, the
resolvers, the `if not amount` guard (catching both `None` and `0.0`),
and the single assembled record with `raw_text = text[:500]`. -/
def extractFromText (text today : List Char) : List Txn :=
  if text.isEmpty || (pyStrip text).length < 5 then []
  else
    match extract_total_amount text with
    | none => []
    | some a =>
      if a = 0 then []
      else [⟨extract_date text today, extract_description text, a,
             detect_transaction_type text (extract_description text), text.take 500⟩]

/-! ## Statement-support definitions -/

/-- Modelled from the spec's selection sentence for `AmountResolver`:
"among all generated candidates, the highest-priority one wins; if several
share the maximum priority, the first discovered (source order) wins".
To be compared against the stable-sort-then-head selection of the code. -/
def specSelect : List Cand → Option Cand
  | [] => none
  | c :: cs =>
    match specSelect cs with
    | none => some c
    | some d => some (if d.priority > c.priority then d else c)

/-- The `YYYY-MM-DD` shape: four digits, dash, two digits, dash, two digits. -/
def isISOShape : List Char → Bool
  | [y1, y2, y3, y4, s1, m1, m2, s2, d1, d2] =>
    y1.isDigit && y2.isDigit && y3.isDigit && y4.isDigit && s1 = '-' &&
      m1.isDigit && m2.isDigit && s2 = '-' && d1.isDigit && d2.isDigit
  | _ => false

/-- Plain decimal rendering of a non-negative rational whose denominator
divides a power of ten: integer digits, then a dot and `k` fractional
digits when `k > 0`, where `k` is the least exponent with `den ∣ 10 ^ k`
(searched below `den + 1`, which suffices for every such rational). -/
def decimalRender (v : ℚ) : List Char :=
  let d := v.den
  let k := (((List.range (d + 1)).find? fun j => decide (d ∣ 10 ^ j))).getD 0
  let m := v.num.toNat * (10 ^ k / d)
  natToDigits (m / 10 ^ k) ++
    (if k = 0 then []
     else '.' :: (List.replicate (k - (natToDigits (m % 10 ^ k)).length) '0'
                   ++ natToDigits (m % 10 ^ k)))

/-- No currency marker of the amount patterns occurs in `l`:
no case variant of `rs` or `inr` as a substring, and no `₹`. -/
def noCurrencyMark (l : List Char) : Bool :=
  !seqContains (l.map lc) ("rs".toList) && !seqContains (l.map lc) ("inr".toList)
    && !l.contains '₹'

/-- The non-whitespace characters of a text (what claim C5 calls its
non-whitespace length, as opposed to `len(text.strip())`). -/
def nonWSLength (cs : List Char) : Nat := (cs.filter fun c => !isPySpace c).length

/-- The recognized text of the spec's end-to-end receipt scenario. -/
def c1Text : List Char :=
  "ABC CAFE\nDate: 12/03/2024\nSubtotal: 450.00\nCGST: 20.00\nTotal: 495.00".toList

/-! ## General lemmas about the model -/

theorem myGcdAux_eq_gcd : ∀ fuel m n, m < fuel → myGcdAux fuel m n = Nat.gcd m n := by
  intro fuel
  induction fuel with
  | zero => intro m n h; omega
  | succ f ih =>
    intro m n h
    rw [myGcdAux]
    by_cases hm : m = 0
    · rw [if_pos hm, hm, Nat.gcd_zero_left]
    · rw [if_neg hm,
         ih (n % m) m (Nat.lt_of_lt_of_le (Nat.mod_lt n (Nat.pos_of_ne_zero hm)) (by omega))]
      exact (Nat.gcd_rec m n).symm

theorem myGcd_eq_gcd (m n : Nat) : myGcd m n = Nat.gcd m n :=
  myGcdAux_eq_gcd _ _ _ (Nat.lt_succ_self m)

theorem decimalToRat_eq (w f k : Nat) :
    decimalToRat w f k = (w : ℚ) + (f : ℚ) / 10 ^ k := by
  have hnum : (decimalToRat w f k).num =
      (((w * 10 ^ k + f) / myGcd (w * 10 ^ k + f) (10 ^ k) : Nat) : Int) := rfl
  have hden : (decimalToRat w f k).den =
      10 ^ k / myGcd (w * 10 ^ k + f) (10 ^ k) := rfl
  rw [← Rat.num_div_den (decimalToRat w f k), hnum, hden, myGcd_eq_gcd]
  have hD : ((10 : Nat) ^ k : ℕ) ≠ 0 := pow_ne_zero _ (by norm_num)
  have hg0 : Nat.gcd (w * 10 ^ k + f) (10 ^ k) ≠ 0 :=
    fun h => hD (Nat.eq_zero_of_gcd_eq_zero_right h)
  have hgQ : ((Nat.gcd (w * 10 ^ k + f) (10 ^ k) : ℕ) : ℚ) ≠ 0 := by
    exact_mod_cast hg0
  have h2 : (((w * 10 ^ k + f) / Nat.gcd (w * 10 ^ k + f) (10 ^ k) : Nat) : ℚ)
      = ((w * 10 ^ k + f : Nat) : ℚ) / ((Nat.gcd (w * 10 ^ k + f) (10 ^ k) : Nat) : ℚ) :=
    Nat.cast_div (Nat.gcd_dvd_left _ _) hgQ
  have h3 : ((10 ^ k / Nat.gcd (w * 10 ^ k + f) (10 ^ k) : Nat) : ℚ)
      = (((10 : Nat) ^ k : Nat) : ℚ) / ((Nat.gcd (w * 10 ^ k + f) (10 ^ k) : Nat) : ℚ) :=
    Nat.cast_div (Nat.gcd_dvd_right _ _) hgQ
  rw [Int.cast_natCast, h2, h3]
  have hDQ : (((10 : Nat) ^ k : Nat) : ℚ) ≠ 0 := by exact_mod_cast hD
  rw [div_div_div_cancel_right₀]
  · push_cast
    field_simp
  · exact hgQ

theorem decimalToRat_nonneg (w f k : Nat) : 0 ≤ decimalToRat w f k := by
  rw [decimalToRat_eq]
  positivity

theorem specSelect_mem {l : List Cand} {c : Cand} (h : specSelect l = some c) : c ∈ l := by
  induction l generalizing c with
  | nil => simp [specSelect] at h
  | cons a as ih =>
    simp only [specSelect] at h
    cases hs : specSelect as with
    | none =>
      rw [hs] at h
      simp only [Option.some.injEq] at h
      simp [← h]
    | some d =>
      rw [hs] at h
      simp only [Option.some.injEq] at h
      by_cases hp : d.priority > a.priority
      · rw [if_pos hp] at h; exact List.mem_cons_of_mem _ (h ▸ ih hs)
      · rw [if_neg hp] at h; simp [← h]

theorem specSelect_eq_none {l : List Cand} (h : specSelect l = none) : l = [] := by
  cases l with
  | nil => rfl
  | cons a as =>
    simp only [specSelect] at h
    cases hs : specSelect as <;> rw [hs] at h <;> simp at h

theorem specSelect_max {l : List Cand} {c : Cand} (h : specSelect l = some c) :
    ∀ d ∈ l, d.priority ≤ c.priority := by
  induction l generalizing c with
  | nil => simp
  | cons a as ih =>
    intro d hd
    simp only [specSelect] at h
    cases hs : specSelect as with
    | none =>
      rw [hs] at h
      simp only [Option.some.injEq] at h
      subst h
      have : as = [] := specSelect_eq_none hs
      subst this
      rcases List.mem_cons.1 hd with rfl | hd'
      · exact le_refl _
      · simp at hd'
    | some b =>
      rw [hs] at h
      simp only [Option.some.injEq] at h
      rcases List.mem_cons.1 hd with rfl | hd'
      · by_cases hp : b.priority > d.priority
        · rw [if_pos hp] at h; subst h; omega
        · rw [if_neg hp] at h; subst h; omega
      · have hdb := ih hs d hd'
        by_cases hp : b.priority > a.priority
        · rw [if_pos hp] at h; subst h; omega
        · rw [if_neg hp] at h; subst h; omega

theorem insertDesc_head (c : Cand) (s : List Cand) :
    (insertDesc c s).head? =
      some (match s.head? with
            | none => c
            | some d => if d.priority > c.priority then d else c) := by
  cases s with
  | nil => rfl
  | cons d ds =>
    simp only [insertDesc, List.head?_cons]
    by_cases hp : d.priority > c.priority
    · rw [if_pos hp, if_pos hp]; rfl
    · rw [if_neg hp, if_neg hp]; rfl

theorem sortCandsDesc_head (l : List Cand) :
    (sortCandsDesc l).head? = specSelect l := by
  induction l with
  | nil => rfl
  | cons c cs ih =>
    simp only [sortCandsDesc, specSelect]
    rw [insertDesc_head, ih]
    cases specSelect cs <;> rfl

theorem extract_total_amount_eq_specSelect (text : List Char) :
    extract_total_amount text = (specSelect (allCandidates text)).map Cand.amount := by
  unfold extract_total_amount
  rw [← sortCandsDesc_head]
  cases sortCandsDesc (allCandidates text) <;> rfl

theorem extract_date_today_of_no_parse (text today : List Char)
    (h1 : (search (dp1At true) text).bind (fun m => tryFormats m.1) = none)
    (h2 : (search (dp2At true) text).bind (fun m => tryFormats m.1) = none)
    (h3 : (search (dp3At true) text).bind (fun m => tryFormats m.1) = none)
    (h4 : (search (dp4At true) text).bind (fun m => tryFormats m.1) = none) :
    extract_date text today = today := by
  have key : ∀ p, (search p text).bind (fun m => tryFormats m.1) = none →
      (search p text).bind (fun m => (tryFormats m.1).map formatISO) = none := by
    intro p hp
    cases hs : search p text with
    | none => rfl
    | some m =>
      rw [hs] at hp
      have hp' : tryFormats m.1 = none := hp
      show (tryFormats m.1).map formatISO = none
      rw [hp']
      rfl
  unfold extract_date dateFromText dpAts
  simp only [List.findSome?]
  rw [key _ h1, key _ h2, key _ h3, key _ h4]
  rfl

theorem daysInMonth_le_31 (y m : Nat) : daysInMonth y m ≤ 31 := by
  unfold daysInMonth
  split
  · split <;> omega
  · split <;> omega

theorem mkDate_some {y m d : Nat} {pd : PyDate} (h : mkDate y m d = some pd) :
    pd = ⟨y, m, d⟩ ∧ 1 ≤ y ∧ y ≤ 9999 ∧ 1 ≤ m ∧ m ≤ 12 ∧ 1 ≤ d ∧ d ≤ 31 := by
  unfold mkDate at h
  split at h
  · next hg =>
    simp only [Bool.and_eq_true, decide_eq_true_eq] at hg
    simp only [Option.some.injEq] at h
    have hd31 : d ≤ 31 := le_trans hg.2 (daysInMonth_le_31 y m)
    exact ⟨h.symm, hg.1.1.1.1.1, hg.1.1.1.1.2, hg.1.1.1.2, hg.1.1.2, hg.1.2, hd31⟩
  · exact absurd h (by simp)

theorem digitChar_isDigit {v : Nat} (h : v < 10) : (digitChar v).isDigit = true := by
  interval_cases v <;> decide

theorem natToDigitsAux_small {n : Nat} (h : n < 10) :
    ∀ fuel, natToDigitsAux fuel n = [digitChar n] := by
  intro fuel
  cases fuel with
  | zero => rfl
  | succ f => rw [natToDigitsAux, if_pos h]

theorem natToDigits_four {y : Nat} (h1 : 1000 ≤ y) (h2 : y ≤ 9999) :
    natToDigits y = [digitChar (y / 1000), digitChar (y / 100 % 10),
                     digitChar (y / 10 % 10), digitChar (y % 10)] := by
  have l2 : ∀ fuel n, 1 ≤ fuel → 10 ≤ n → n ≤ 99 →
      natToDigitsAux fuel n = [digitChar (n / 10), digitChar (n % 10)] := by
    intro fuel n hf hn1 hn2
    obtain ⟨f, rfl⟩ : ∃ f, fuel = f + 1 := ⟨fuel - 1, by omega⟩
    rw [natToDigitsAux, if_neg (by omega), natToDigitsAux_small (by omega)]
    rfl
  have l3 : ∀ fuel n, 2 ≤ fuel → 100 ≤ n → n ≤ 999 →
      natToDigitsAux fuel n = [digitChar (n / 100), digitChar (n / 10 % 10),
                               digitChar (n % 10)] := by
    intro fuel n hf hn1 hn2
    obtain ⟨f, rfl⟩ : ∃ f, fuel = f + 1 := ⟨fuel - 1, by omega⟩
    rw [natToDigitsAux, if_neg (by omega), l2 f (n / 10) (by omega) (by omega) (by omega)]
    have e1 : n / 10 / 10 = n / 100 := by omega
    have e2 : n / 10 % 10 = n / 10 % 10 := rfl
    rw [e1]
    rfl
  obtain ⟨f, hfe⟩ : ∃ f, y = f + 1 := ⟨y - 1, by omega⟩
  unfold natToDigits
  rw [hfe]
  nth_rewrite 1 [natToDigitsAux]
  rw [if_neg (by omega), l3 f ((f + 1) / 10) (by omega) (by omega) (by omega)]
  have e1 : (f + 1) / 10 / 100 = (f + 1) / 1000 := by omega
  have e2 : (f + 1) / 10 / 10 % 10 = (f + 1) / 100 % 10 := by
    have : (f + 1) / 10 / 10 = (f + 1) / 100 := by omega
    rw [this]
  have e3 : (f + 1) / 10 % 10 = (f + 1) / 10 % 10 := rfl
  rw [e1, e2]
  rfl

theorem formatISO_shape {pd : PyDate} (hy1 : 1000 ≤ pd.year) (hy2 : pd.year ≤ 9999) :
    isISOShape (formatISO pd) = true := by
  unfold formatISO pad2
  rw [natToDigits_four hy1 hy2]
  show isISOShape [digitChar (pd.year / 1000), digitChar (pd.year / 100 % 10),
    digitChar (pd.year / 10 % 10), digitChar (pd.year % 10), '-',
    digitChar (pd.month / 10 % 10), digitChar (pd.month % 10), '-',
    digitChar (pd.day / 10 % 10), digitChar (pd.day % 10)] = true
  unfold isISOShape
  simp only [Bool.and_eq_true, decide_eq_true_eq]
  repeat' apply And.intro
  all_goals first
  | trivial
  | (apply digitChar_isDigit; omega)

theorem extract_none_no_txn (text today : List Char)
    (h : extract_total_amount text = none) : extractFromText text today = [] := by
  unfold extractFromText
  rw [h]
  split
  · rfl
  · rfl

theorem findSomeInv {α β : Type} {f : α → Option β} {l : List α} {b : β}
    (h : l.findSome? f = some b) : ∃ a, a ∈ l ∧ f a = some b := by
  induction l with
  | nil => simp [List.findSome?] at h
  | cons x xs ih =>
    rw [List.findSome?] at h
    cases hf : f x with
    | some y =>
      rw [hf] at h
      simp only [Option.some.injEq] at h
      exact ⟨x, List.mem_cons_self x xs, by rw [hf, h]⟩
    | none =>
      rw [hf] at h
      obtain ⟨a, ha, hfa⟩ := ih h
      exact ⟨a, List.mem_cons_of_mem _ ha, hfa⟩

theorem le_foldl_max (a : ℚ) (l : List ℚ) : a ≤ l.foldl max a := by
  induction l generalizing a with
  | nil => exact le_refl a
  | cons x xs ih => exact le_trans (le_max_left a x) (ih (max a x))

theorem parseFloat_nonneg {cs : List Char} {v : ℚ} (h : parseFloat cs = some v) : 0 ≤ v := by
  unfold parseFloat at h
  split at h
  · split at h
    · exact absurd h (by simp)
    · simp only [Option.some.injEq] at h
      rw [← h]
      positivity
  · split at h
    · simp only [Option.some.injEq] at h
      rw [← h]
      exact decimalToRat_nonneg _ _ _
    · exact absurd h (by simp)
  · exact absurd h (by simp)

theorem cleanAmount_nonneg {cs : List Char} {v : ℚ} (h : cleanAmount cs = some v) : 0 ≤ v := by
  unfold cleanAmount at h
  exact parseFloat_nonneg h

theorem lineCands_nonneg {line : List Char} {next? : Option (List Char)} {c : Cand}
    (hc : c ∈ lineCands line next?) : 0 ≤ c.amount := by
  unfold lineCands at hc
  split at hc
  · rcases List.mem_append.1 hc with hm | hm
    · obtain ⟨a, ha, rfl⟩ := List.mem_map.1 hm
      obtain ⟨m, _, hclean⟩ := List.mem_filterMap.1 ha
      exact cleanAmount_nonneg hclean
    · cases hn : next? with
      | some nl =>
        rw [hn] at hm
        obtain ⟨a, ha, rfl⟩ := List.mem_map.1 hm
        obtain ⟨m, _, hclean⟩ := List.mem_filterMap.1 ha
        exact cleanAmount_nonneg hclean
      | none =>
        rw [hn] at hm
        simp at hm
  · simp at hc

theorem strat1_nonneg {lines : List (List Char)} {c : Cand}
    (hc : c ∈ strat1 lines) : 0 ≤ c.amount := by
  induction lines with
  | nil => simp [strat1] at hc
  | cons l rest ih =>
    rw [strat1] at hc
    rcases List.mem_append.1 hc with h | h
    · exact lineCands_nonneg h
    · exact ih h

theorem strat2_nonneg {text : List Char} {c : Cand}
    (hc : c ∈ strat2 text) : 0 ≤ c.amount := by
  unfold strat2 at hc
  rcases List.mem_append.1 hc with hm | hm <;>
  · obtain ⟨a, ha, rfl⟩ := List.mem_map.1 hm
    obtain ⟨m, _, hclean⟩ := List.mem_filterMap.1 ha
    exact cleanAmount_nonneg hclean

theorem strat3Amounts_gt_one {lines : List (List Char)} {a : ℚ}
    (ha : a ∈ strat3Amounts lines) : 1 < a := by
  unfold strat3Amounts at ha
  obtain ⟨line, _, hmem⟩ := List.mem_flatMap.1 ha
  split at hmem
  · simp at hmem
  · obtain ⟨m, _, hm⟩ := List.mem_filterMap.1 hmem
    cases hcl : cleanAmount m with
    | none => rw [hcl] at hm; simp at hm
    | some b =>
      rw [hcl] at hm
      have hm' : (if b > 1 then
          (if (decide (b.den = 1) && decide (2000 ≤ b) && decide (b ≤ 2100)) = true
           then none else some b) else none) = some a := hm
      by_cases h1 : b > 1
      · rw [if_pos h1] at hm'
        by_cases h2 : (decide (b.den = 1) && decide (2000 ≤ b) && decide (b ≤ 2100)) = true
        · rw [if_pos h2] at hm'
          exact absurd hm' (by simp)
        · rw [if_neg h2] at hm'
          simp only [Option.some.injEq] at hm'
          rw [← hm']
          exact h1
      · rw [if_neg h1] at hm'
        exact absurd hm' (by simp)

theorem strat3_nonneg {lines : List (List Char)} {c : Cand}
    (hc : c ∈ strat3 lines) : 0 ≤ c.amount := by
  unfold strat3 at hc
  split at hc
  · simp at hc
  · next a as heq =>
    simp only [List.mem_singleton] at hc
    subst hc
    have ha : a ∈ strat3Amounts lines := by rw [heq]; exact List.mem_cons_self a as
    have h1 : 1 < a := strat3Amounts_gt_one ha
    have h2 : a ≤ as.foldl max a := le_foldl_max a as
    show (0 : ℚ) ≤ as.foldl max a
    linarith

theorem allCandidates_nonneg {text : List Char} {c : Cand}
    (hc : c ∈ allCandidates text) : 0 ≤ c.amount := by
  simp only [allCandidates] at hc
  split at hc
  · split at hc
    · exact strat3_nonneg hc
    · exact strat2_nonneg hc
  · exact strat1_nonneg hc

theorem extract_amount_nonneg {text : List Char} {a : ℚ}
    (h : extract_total_amount text = some a) : 0 ≤ a := by
  rw [extract_total_amount_eq_specSelect] at h
  cases hs : specSelect (allCandidates text) with
  | none => rw [hs] at h; simp at h
  | some c =>
    rw [hs] at h
    simp only [Option.map_some', Option.some.injEq] at h
    rw [← h]
    exact allCandidates_nonneg (specSelect_mem hs)

theorem knownMerchants_ok : ∀ m ∈ knownMerchants, m ≠ [] ∧ m.length ≤ 100 := by decide

theorem txnLabels_ok : ∀ p ∈ txnTypeLabels, p.2 ≠ [] ∧ p.2.length ≤ 100 := by decide

theorem merchantFromPats_ok {text m : List Char} (h : merchantFromPats text = some m) :
    m ≠ [] ∧ m.length ≤ 100 := by
  unfold merchantFromPats at h
  obtain ⟨pAt, _, hp⟩ := findSomeInv h
  cases hs : search pAt text with
  | none => rw [hs] at hp; exact absurd hp (by simp)
  | some mr =>
    rw [hs] at hp
    have hp' : (if (decide (3 < (normSpaces (pyStrip mr.1)).length)
          && decide ((normSpaces (pyStrip mr.1)).length < 50)) = true
        then some (normSpaces (pyStrip mr.1)) else none) = some m := hp
    split at hp'
    · next hg =>
      simp only [Bool.and_eq_true, decide_eq_true_eq] at hg
      simp only [Option.some.injEq] at hp'
      subst hp'
      constructor
      · intro hnil
        rw [hnil] at hg
        simp at hg
      · omega
    · exact absurd hp' (by simp)

theorem descLoop_ok : ∀ {ls : List (List Char)} {d : List Char},
    descLoop ls = some d → d ≠ [] ∧ d.length ≤ 100 := by
  intro ls
  induction ls with
  | nil => intro d h; simp [descLoop] at h
  | cons line rest ih =>
    intro d h
    rw [descLoop] at h
    split at h
    · exact ih h
    · split at h
      · exact ih h
      · split at h
        · exact ih h
        · have h' : (if (normSpaces line).length > 4
              then some ((normSpaces line).take 100) else descLoop rest) = some d := h
          by_cases hlen : (normSpaces line).length > 4
          · rw [if_pos hlen] at h'
            simp only [Option.some.injEq] at h'
            subst h'
            constructor
            · intro hnil
              have h0 : ((normSpaces line).take 100).length = 0 := by rw [hnil]; rfl
              rw [List.length_take, Nat.min_eq_zero_iff] at h0
              rcases h0 with h0 | h0 <;> omega
            · rw [List.length_take]
              exact min_le_left _ _
          · rw [if_neg hlen] at h'
            exact ih h'

theorem extract_description_ok (text : List Char) :
    extract_description text ≠ [] ∧ (extract_description text).length ≤ 100 := by
  unfold extract_description
  split
  · next m hf => simpa using knownMerchants_ok m (List.mem_of_find?_eq_some hf)
  · split
    · next m hm => simpa using merchantFromPats_ok hm
    · split
      · next d hd => simpa using descLoop_ok hd
      · split
        · next l hl =>
          obtain ⟨p, hpmem, hpf⟩ := findSomeInv hl
          have hlp : l = p.2 := by
            by_cases hc : seqContains (text.map lc) p.1 = true
            · rw [if_pos hc] at hpf
              simp only [Option.some.injEq] at hpf
              rw [hpf]
            · rw [if_neg hc] at hpf
              exact absurd hpf (by simp)
          subst hlp
          simpa using txnLabels_ok p hpmem
        · exact ⟨by decide, by decide⟩

theorem extractFromText_len_le_one (text today : List Char) :
    (extractFromText text today).length ≤ 1 := by
  unfold extractFromText
  split
  · simp
  · split
    · simp
    · split
      · simp
      · simp


/-- Every nonzero divisor of a power of ten divides `10 ^ d` for `d`
itself (each prime factor is 2 or 5, with multiplicity below `d`). -/
theorem dvd_ten_pow_self {d : Nat} (hd : d ≠ 0) {l : Nat} (h : d ∣ 10 ^ l) :
    d ∣ 10 ^ d := by
  have h10l : (10 : ℕ) ^ l ≠ 0 := pow_ne_zero _ (by norm_num)
  have h10d : (10 : ℕ) ^ d ≠ 0 := pow_ne_zero _ (by norm_num)
  have hfact10 : (10 : ℕ).factorization = Finsupp.single 2 1 + Finsupp.single 5 1 := by
    have h25 : (10 : ℕ) = 2 * 5 := rfl
    rw [h25, Nat.factorization_mul (by norm_num) (by norm_num),
        Nat.Prime.factorization (by norm_num), Nat.Prime.factorization (by norm_num)]
  rw [← Nat.factorization_le_iff_dvd hd h10d]
  rw [Finsupp.le_def]
  intro p
  rw [Nat.factorization_pow, Finsupp.smul_apply, smul_eq_mul]
  have hle : d.factorization p ≤ l * (10 : ℕ).factorization p := by
    have := (Nat.factorization_le_iff_dvd hd h10l).2 h
    rw [Finsupp.le_def] at this
    have hp := this p
    rwa [Nat.factorization_pow, Finsupp.smul_apply, smul_eq_mul] at hp
  by_cases hp : p = 2 ∨ p = 5
  · have h1 : (10 : ℕ).factorization p = 1 := by
      rcases hp with rfl | rfl <;> simp [hfact10, Finsupp.single_apply]
    rw [h1, mul_one]
    exact le_of_lt (Nat.factorization_lt p hd)
  · push_neg at hp
    have h0 : (10 : ℕ).factorization p = 0 := by
      simp only [hfact10, Finsupp.add_apply, Finsupp.single_apply]
      rw [if_neg (by omega), if_neg (by omega)]
      rfl
    rw [h0] at hle ⊢
    omega


theorem natToDigitsAux_digits : ∀ fuel n, n ≤ fuel ∨ n < 10 →
    ∀ c ∈ natToDigitsAux fuel n, c.isDigit = true := by
  intro fuel
  induction fuel with
  | zero =>
    intro n hn c hc
    have : n < 10 := by omega
    simp only [natToDigitsAux, List.mem_singleton] at hc
    subst hc
    exact digitChar_isDigit this
  | succ f ih =>
    intro n hn c hc
    rw [natToDigitsAux] at hc
    by_cases h10 : n < 10
    · rw [if_pos h10] at hc
      simp only [List.mem_singleton] at hc
      subst hc
      exact digitChar_isDigit h10
    · rw [if_neg h10] at hc
      rcases List.mem_append.1 hc with hm | hm
      · exact ih (n / 10) (by omega) c hm
      · simp only [List.mem_singleton] at hm
        subst hm
        exact digitChar_isDigit (by omega)

theorem natToDigits_digits (n : Nat) : ∀ c ∈ natToDigits n, c.isDigit = true :=
  natToDigitsAux_digits n n (Or.inl (le_refl n))

theorem dv_digitChar {v : Nat} (h : v < 10) : dv (digitChar v) = v := by
  interval_cases v <;> decide

theorem natOfDigits_append_one (xs : List Char) (c : Char) :
    natOfDigits (xs ++ [c]) = 10 * natOfDigits xs + dv c := by
  unfold natOfDigits
  rw [List.foldl_append]
  rfl

theorem natToDigitsAux_val : ∀ fuel n, n ≤ fuel ∨ n < 10 →
    natOfDigits (natToDigitsAux fuel n) = n := by
  intro fuel
  induction fuel with
  | zero =>
    intro n hn
    have h10 : n < 10 := by omega
    show natOfDigits [digitChar n] = n
    unfold natOfDigits
    simp [dv_digitChar h10]
  | succ f ih =>
    intro n hn
    rw [natToDigitsAux]
    by_cases h10 : n < 10
    · rw [if_pos h10]
      unfold natOfDigits
      simp [dv_digitChar h10]
    · rw [if_neg h10, natOfDigits_append_one, ih (n / 10) (by omega),
          dv_digitChar (by omega)]
      omega

theorem natToDigits_val (n : Nat) : natOfDigits (natToDigits n) = n :=
  natToDigitsAux_val n n (Or.inl (le_refl n))

theorem natToDigitsAux_ne_nil (fuel n : Nat) : natToDigitsAux fuel n ≠ [] := by
  cases fuel with
  | zero => simp [natToDigitsAux]
  | succ f =>
    rw [natToDigitsAux]
    split
    · simp
    · simp

theorem natToDigits_ne_nil (n : Nat) : natToDigits n ≠ [] := natToDigitsAux_ne_nil n n

theorem natToDigitsAux_len : ∀ fuel n k, n ≤ fuel ∨ n < 10 → n < 10 ^ k → 1 ≤ k →
    (natToDigitsAux fuel n).length ≤ k := by
  intro fuel
  induction fuel with
  | zero =>
    intro n k hn hnk hk
    show ([digitChar n]).length ≤ k
    simpa using hk
  | succ f ih =>
    intro n k hn hnk hk
    rw [natToDigitsAux]
    by_cases h10 : n < 10
    · rw [if_pos h10]
      simpa using hk
    · rw [if_neg h10]
      obtain ⟨k', rfl⟩ : ∃ k', k = k' + 1 := ⟨k - 1, by omega⟩
      have hk' : 1 ≤ k' := by
        by_contra hc
        have : k' = 0 := by omega
        subst this
        simp [pow_succ, pow_zero] at hnk
        omega
      have hdiv : n / 10 < 10 ^ k' := by
        rw [Nat.div_lt_iff_lt_mul (by norm_num)]
        calc n < 10 ^ (k' + 1) := hnk
        _ = 10 ^ k' * 10 := by rw [pow_succ]
      rw [List.length_append]
      have := ih (n / 10) k' (by omega) hdiv hk'
      simp only [List.length_singleton]
      omega

theorem natToDigits_len {n k : Nat} (hnk : n < 10 ^ k) (hk : 1 ≤ k) :
    (natToDigits n).length ≤ k :=
  natToDigitsAux_len n n k (Or.inl (le_refl n)) hnk hk

theorem natOfDigits_zeros (z : Nat) (ds : List Char) :
    natOfDigits (List.replicate z '0' ++ ds) = natOfDigits ds := by
  induction z with
  | zero => rfl
  | succ z ih =>
    rw [List.replicate_succ]
    show natOfDigits ('0' :: (List.replicate z '0' ++ ds)) = natOfDigits ds
    unfold natOfDigits at ih ⊢
    simpa [dv] using ih


theorem parseFloat_shape {cs : List Char} {v : ℚ} (h : parseFloat cs = some v) :
    ∃ N k : ℕ, v = (N : ℚ) / 10 ^ k := by
  unfold parseFloat at h
  split at h
  · split at h
    · exact absurd h (by simp)
    · refine ⟨natOfDigits (cs.takeWhile Char.isDigit), 0, ?_⟩
      simp at h
      simp [← h]
  · next fp heq =>
    split at h
    · simp only [Option.some.injEq] at h
      refine ⟨natOfDigits (cs.takeWhile Char.isDigit) * 10 ^ fp.length
        + natOfDigits fp, fp.length, ?_⟩
      rw [← h, decimalToRat_eq]
      push_cast
      field_simp
    · exact absurd h (by simp)
  · exact absurd h (by simp)

theorem den_dvd_of_div_pow {N k : ℕ} : ((N : ℚ) / 10 ^ k).den ∣ 10 ^ k := by
  have h1 : (N : ℚ) / 10 ^ k = Rat.divInt (N : ℤ) ((10 : ℤ) ^ k) := by
    rw [Rat.divInt_eq_div]
    push_cast
    ring
  have h2 := Rat.den_dvd (N : ℤ) ((10 : ℤ) ^ k)
  rw [← h1] at h2
  have h3 : ((10 : ℤ) ^ k) = ((10 ^ k : ℕ) : ℤ) := by push_cast; ring
  rw [h3] at h2
  exact_mod_cast h2


theorem render_find_some {d : Nat} (hd : d ≠ 0) {k : Nat} (h : d ∣ 10 ^ k) :
    ∃ j, ((List.range (d + 1)).find? fun j => decide (d ∣ 10 ^ j)) = some j ∧ d ∣ 10 ^ j := by
  have hmem : ∃ x ∈ List.range (d + 1), (fun j => decide (d ∣ 10 ^ j)) x = true := by
    refine ⟨d, List.mem_range.2 (by omega), ?_⟩
    exact decide_eq_true (dvd_ten_pow_self hd h)
  have hsome := List.find?_isSome.2 hmem
  obtain ⟨j, hj⟩ := Option.isSome_iff_exists.1 hsome
  have hp := List.find?_some hj
  exact ⟨j, hj, by simpa using hp⟩

theorem takeWhile_all_append {p : Char → Bool} :
    ∀ {xs : List Char}, (∀ c ∈ xs, p c = true) → ∀ {y : Char}, p y = false →
    ∀ ys, (xs ++ y :: ys).takeWhile p = xs := by
  intro xs
  induction xs with
  | nil =>
    intro _ y hy ys
    simp [List.takeWhile, hy]
  | cons x xs ih =>
    intro hall y hy ys
    have hx : p x = true := hall x (by simp)
    simp only [List.cons_append, List.takeWhile_cons]
    rw [if_pos hx, ih (fun c hc => hall c (by simp [hc])) hy ys]

theorem dropWhile_all_append {p : Char → Bool} :
    ∀ {xs : List Char}, (∀ c ∈ xs, p c = true) → ∀ {y : Char}, p y = false →
    ∀ ys, (xs ++ y :: ys).dropWhile p = y :: ys := by
  intro xs
  induction xs with
  | nil =>
    intro _ y hy ys
    simp [List.dropWhile, hy]
  | cons x xs ih =>
    intro hall y hy ys
    have hx : p x = true := hall x (by simp)
    simp only [List.cons_append, List.dropWhile_cons]
    rw [if_pos hx]
    exact ih (fun c hc => hall c (by simp [hc])) hy ys

theorem cleanAmount_plain {cs : List Char}
    (hsp : cs.contains ' ' = false)
    (hamt : ∀ c ∈ cs, isAmtChar c = true)
    (hcomma : ∀ c ∈ cs, c ≠ ',')
    (hdot : ¬ cs.count '.' > 1) :
    cleanAmount cs = parseFloat cs := by
  unfold cleanAmount
  simp only [hsp, Bool.false_eq_true, if_false]
  rw [List.filter_eq_self.mpr hamt,
      List.filter_eq_self.mpr (fun c hc => decide_eq_true (hcomma c hc)),
      if_neg hdot]


theorem dropWhile_eq_nil_of_all {p : Char → Bool} {xs : List Char}
    (h : ∀ c ∈ xs, p c = true) : xs.dropWhile p = [] :=
  List.dropWhile_eq_nil_iff.2 h

theorem takeWhile_eq_self_of_all {p : Char → Bool} {xs : List Char}
    (h : ∀ c ∈ xs, p c = true) : xs.takeWhile p = xs := by
  induction xs with
  | nil => rfl
  | cons x xs ih =>
    rw [List.takeWhile_cons, if_pos (h x (by simp)),
        ih (fun c hc => h c (by simp [hc]))]

theorem parseFloat_allDigits {cs : List Char} (hne : cs ≠ [])
    (h : ∀ c ∈ cs, c.isDigit = true) :
    parseFloat cs = some ((natOfDigits cs : ℚ)) := by
  unfold parseFloat
  split
  · rw [takeWhile_eq_self_of_all h]
    rw [if_neg (by simpa [List.isEmpty_iff] using hne)]
  · next fp heq =>
    rw [dropWhile_eq_nil_of_all h] at heq
    exact absurd heq (by simp)
  · next heq h1 h2 =>
    rw [dropWhile_eq_nil_of_all h] at h1
    exact absurd rfl h1

theorem parseFloat_decimal {ip fp : List Char} (hip : ∀ c ∈ ip, c.isDigit = true)
    (hipne : ip ≠ []) (hfp : ∀ c ∈ fp, c.isDigit = true) :
    parseFloat (ip ++ '.' :: fp)
      = some (decimalToRat (natOfDigits ip) (natOfDigits fp) fp.length) := by
  have hdw : (ip ++ '.' :: fp).dropWhile Char.isDigit = '.' :: fp :=
    dropWhile_all_append hip (by decide) fp
  have htw : (ip ++ '.' :: fp).takeWhile Char.isDigit = ip :=
    takeWhile_all_append hip (by decide) fp
  unfold parseFloat
  split
  · next heq =>
    rw [hdw] at heq
    exact absurd heq (by simp)
  · next fp' heq =>
    rw [hdw] at heq
    injection heq with h1 h2
    subst h2
    rw [htw]
    rw [if_pos (by simp [List.all_eq_true, List.isEmpty_iff, hipne]; exact hfp)]
  · next heq h1 h2 =>
    rw [hdw] at h2
    exact absurd rfl (h2 fp)


theorem contains_space_false {cs : List Char} (h : ∀ c ∈ cs, c ≠ ' ') :
    cs.contains ' ' = false := by
  by_contra hc
  have h1 : cs.contains ' ' = true := by simpa using hc
  have h2 : ' ' ∈ cs := by simpa using h1
  exact h _ h2 rfl

theorem cleanAmount_render {v : ℚ} (hv : 0 ≤ v) {k : ℕ} (hden : v.den ∣ 10 ^ k) :
    cleanAmount (decimalRender v) = some v := by
  have hd : v.den ≠ 0 := v.den_nz
  obtain ⟨j, hfind, hdvdj⟩ := render_find_some hd hden
  have hnum0 : 0 ≤ v.num := Rat.num_nonneg.2 hv
  have h10j : (0 : ℕ) < 10 ^ j := Nat.pos_pow_of_pos j (by norm_num)
  simp only [decimalRender]
  rw [hfind]
  simp only [Option.getD_some]
  set m := v.num.toNat * (10 ^ j / v.den) with hmdef
  have hm : ((m : ℕ) : ℚ) = v * 10 ^ j := by
    have h1 : ((10 ^ j / v.den : ℕ) : ℚ) = (10 : ℚ) ^ j / (v.den : ℚ) := by
      rw [Nat.cast_div hdvdj (by exact_mod_cast hd)]
      push_cast
      ring
    have h2 : ((v.num.toNat : ℕ) : ℚ) = (v.num : ℚ) := by
      exact_mod_cast congrArg (fun z => ((z : ℤ) : ℚ)) (Int.toNat_of_nonneg hnum0)
    have hdq : ((v.den : ℚ)) ≠ 0 := by exact_mod_cast hd
    rw [hmdef]
    push_cast [h1, h2]
    conv_rhs => rw [← Rat.num_div_den v]
    field_simp
  by_cases hj : j = 0
  · subst hj
    rw [if_pos rfl, List.append_nil]
    rw [pow_zero] at hdvdj
    have hden1 : v.den = 1 := Nat.dvd_one.mp hdvdj
    have hm1 : m = v.num.toNat := by
      rw [hmdef, pow_zero, hden1]
      simp
    have hdig := natToDigits_digits (m / 10 ^ 0)
    rw [pow_zero, Nat.div_one] at hdig ⊢
    rw [cleanAmount_plain
        (contains_space_false (fun c hc => by have := hdig c hc; intro he; subst he; simp at this))
        (fun c hc => by have := hdig c hc; simp [isAmtChar, this])
        (fun c hc => by have := hdig c hc; intro he; subst he; simp at this)
        (by
          have h0 : (natToDigits m).count '.' = 0 := List.count_eq_zero.2
            (fun hmem => by have := hdig _ hmem; simp at this)
          omega),
      parseFloat_allDigits (natToDigits_ne_nil m) hdig, natToDigits_val]
    have hv1 : v = ((m : ℕ) : ℚ) := by
      rw [hm, pow_zero, mul_one]
    rw [← hv1]
  · rw [if_neg hj]
    have hj1 : 1 ≤ j := by omega
    have hmod : m % 10 ^ j < 10 ^ j := Nat.mod_lt _ h10j
    have hlen : (natToDigits (m % 10 ^ j)).length ≤ j := natToDigits_len hmod hj1
    set ip := natToDigits (m / 10 ^ j) with hipdef
    set fz := List.replicate (j - (natToDigits (m % 10 ^ j)).length) '0'
      ++ natToDigits (m % 10 ^ j) with hfzdef
    have hipdig : ∀ c ∈ ip, c.isDigit = true := natToDigits_digits _
    have hfzdig : ∀ c ∈ fz, c.isDigit = true := by
      intro c hc
      rw [hfzdef] at hc
      rcases List.mem_append.1 hc with hm1 | hm1
      · rw [List.eq_of_mem_replicate hm1]
        decide
      · exact natToDigits_digits _ c hm1
    have halldig : ∀ c ∈ ip ++ '.' :: fz, c.isDigit = true ∨ c = '.' := by
      intro c hc
      rcases List.mem_append.1 hc with hm1 | hm1
      · exact Or.inl (hipdig c hm1)
      · rcases List.mem_cons.1 hm1 with rfl | hm2
        · exact Or.inr rfl
        · exact Or.inl (hfzdig c hm2)
    have hcount : (ip ++ '.' :: fz).count '.' = 1 := by
      rw [List.count_append, List.count_cons_self,
          List.count_eq_zero.2 (fun hmem => by have := hipdig _ hmem; simp at this),
          List.count_eq_zero.2 (fun hmem => by have := hfzdig _ hmem; simp at this)]
    rw [cleanAmount_plain
        (contains_space_false (fun c hc => by
          rcases halldig c hc with h' | h'
          · intro he; subst he; simp at h'
          · intro he; rw [he] at h'; exact absurd h' (by decide)))
        (fun c hc => by
          rcases halldig c hc with h' | h'
          · simp [isAmtChar, h']
          · subst h'; decide)
        (fun c hc => by
          rcases halldig c hc with h' | h'
          · intro he; subst he; simp at h'
          · intro he; rw [he] at h'; exact absurd h' (by decide))
        (by omega),
      parseFloat_decimal hipdig (natToDigits_ne_nil _) hfzdig]
    have hlf : fz.length = j := by
      rw [hfzdef, List.length_append, List.length_replicate]
      omega
    have hvip : natOfDigits ip = m / 10 ^ j := natToDigits_val _
    have hvfz : natOfDigits fz = m % 10 ^ j := by
      rw [hfzdef, natOfDigits_zeros, natToDigits_val]
    rw [hvip, hvfz, hlf, decimalToRat_eq]
    congr 1
    have hsplit : ((m : ℕ) : ℚ)
        = (10 : ℚ) ^ j * ((m / 10 ^ j : ℕ) : ℚ) + ((m % 10 ^ j : ℕ) : ℚ) := by
      conv_lhs => rw [← Nat.div_add_mod m (10 ^ j)]
      push_cast
      ring
    have h10q : ((10 : ℚ)) ^ j ≠ 0 := by positivity
    field_simp
    rw [← hm, hsplit]
    ring


theorem seqContains_of_suffix_lead {hay cs needle : List Char}
    (hs : cs <:+ hay) (hl : leadSeg needle cs = true) : seqContains hay needle = true := by
  induction hay with
  | nil =>
    have h0 : cs = [] := List.suffix_nil.mp hs
    subst h0
    rw [seqContains]
    simp [hl]
  | cons h t ih =>
    rcases List.suffix_cons_iff.mp hs with rfl | hs'
    · rw [seqContains]
      simp [hl]
    · rw [seqContains]
      simp [ih hs']

theorem currencyMark_none {line : List Char} (hcur : noCurrencyMark line = true) :
    ∀ cs, cs <:+ line → currencyMark cs = none := by
  unfold noCurrencyMark at hcur
  simp only [Bool.and_eq_true, Bool.not_eq_true'] at hcur
  obtain ⟨⟨hrs, hinr⟩, hsym⟩ := hcur
  intro cs hs
  have hmaps : cs.map lc <:+ line.map lc := hs.map lc
  have hnrs : ∀ a b : Char, ∀ rest : List Char, cs = a :: b :: rest →
      ¬(lc a = 'r' ∧ lc b = 's') := by
    rintro a b rest rfl ⟨ha, hb⟩
    have : seqContains (line.map lc) ("rs".toList) = true := by
      refine seqContains_of_suffix_lead hmaps ?_
      simp only [List.map_cons]
      rw [ha, hb]
      simp [leadSeg]
    rw [hrs] at this
    exact absurd this (by simp)
  have hnsym : ∀ a : Char, ∀ rest : List Char, cs = a :: rest → a ≠ '₹' := by
    rintro a rest rfl rfl
    have hmem : '₹' ∈ line := hs.subset (by simp)
    have : line.contains '₹' = true := by simpa using hmem
    rw [hsym] at this
    exact absurd this (by simp)
  have hninr : ∀ a b c : Char, ∀ rest : List Char, cs = a :: b :: c :: rest →
      ¬(lc a = 'i' ∧ lc b = 'n' ∧ lc c = 'r') := by
    rintro a b c rest rfl ⟨ha, hb, hc⟩
    have : seqContains (line.map lc) ("inr".toList) = true := by
      refine seqContains_of_suffix_lead hmaps ?_
      simp only [List.map_cons]
      rw [ha, hb, hc]
      simp [leadSeg]
    rw [hinr] at this
    exact absurd this (by simp)
  unfold currencyMark
  split
  · next c1 c2 c3 rest =>
    rw [if_neg (by
        simp only [Bool.and_eq_true, decide_eq_true_eq]
        exact hnrs c1 c2 (c3 :: rest) rfl),
      if_neg (hnsym c1 (c2 :: c3 :: rest) rfl),
      if_neg (by
        simp only [Bool.and_eq_true, decide_eq_true_eq]
        intro hx
        exact hninr c1 c2 c3 rest rfl ⟨hx.1.1, hx.1.2, hx.2⟩)]
  · next c1 c2 =>
    rw [if_neg (by
        simp only [Bool.and_eq_true, decide_eq_true_eq]
        exact hnrs c1 c2 [] rfl),
      if_neg (hnsym c1 [c2] rfl)]
  · next c1 =>
    rw [if_neg (hnsym c1 [] rfl)]
  · rfl


theorem commaGroupCands_not_comma {cs : List Char} (h : cs.head? ≠ some ',') :
    commaGroupCands cs = [([], cs)] := by
  unfold commaGroupCands
  split
  · simp at h
  · rfl

theorem digitRunCands_rest_suffix {lo hi : Nat} {cs : List Char} :
    ∀ p ∈ digitRunCands lo hi cs, p.2 <:+ cs := by
  intro p hp
  simp only [digitRunCands] at hp
  split at hp
  · simp at hp
  · obtain ⟨i, hi, rfl⟩ := List.mem_map.1 hp
    exact List.drop_suffix _ _

theorem dotCands_rest_suffix {cs : List Char} : ∀ r ∈ dotCands cs, r.2 <:+ cs := by
  intro r hr
  unfold dotCands at hr
  split at hr
  · next d1 d2 rest =>
    split at hr
    · rcases List.mem_cons.1 hr with rfl | hr'
      · exact ⟨['.', d1, d2], rfl⟩
      · rcases List.mem_singleton.1 hr' with rfl
        exact List.suffix_refl _
    · rcases List.mem_singleton.1 hr with rfl
      exact List.suffix_refl _
  · rcases List.mem_singleton.1 hr with rfl
    exact List.suffix_refl _

theorem head_ne_comma {cs : List Char} (h : ∀ c ∈ cs, c ≠ ',') :
    cs.head? ≠ some ',' := by
  cases cs with
  | nil => simp
  | cons c t =>
    simp only [List.head?_cons, ne_eq, Option.some.injEq]
    exact h c (by simp)

theorem amountCoreCands_rest_suffix {cs : List Char} (hnc : ∀ c ∈ cs, c ≠ ',') :
    ∀ p ∈ amountCoreCands cs, p.2 <:+ cs := by
  intro p hp
  unfold amountCoreCands at hp
  obtain ⟨a, ha, hp1⟩ := List.mem_flatMap.1 hp
  obtain ⟨q, hq, hp2⟩ := List.mem_flatMap.1 hp1
  obtain ⟨r, hr, rfl⟩ := List.mem_map.1 hp2
  have hsa : a.2 <:+ cs := digitRunCands_rest_suffix a ha
  rw [commaGroupCands_not_comma (head_ne_comma (fun c hc => hnc c (hsa.subset hc)))] at hq
  rcases List.mem_singleton.1 hq with rfl
  exact ((dotCands_rest_suffix r hr).trans hsa)

theorem p1At_none {prev : Option Char} {cs : List Char}
    (hcm : currencyMark cs = none) : p1At prev cs = none := by
  unfold p1At
  rw [hcm]
  rfl

theorem p2At_none {line : List Char} {prev : Option Char} {cs : List Char}
    (hcs : cs <:+ line)
    (hcm : ∀ cs', cs' <:+ line → currencyMark cs' = none)
    (hnc : ∀ c ∈ line, c ≠ ',') : p2At prev cs = none := by
  unfold p2At
  rw [List.findSome?_eq_none_iff]
  intro p hp
  have hps : p.2 <:+ cs :=
    amountCoreCands_rest_suffix (fun c hc => hnc c ((hcs.subset hc))) p hp
  rw [hcm (p.2.dropWhile isPySpace) (((List.dropWhile_suffix _).trans hps).trans hcs)]
  rfl


theorem p3At_none {prev : Option Char} {cs : List Char}
    (hnc : ∀ c ∈ cs, c ≠ ',') : p3At prev cs = none := by
  unfold p3At
  split
  · have hfl : ((digitRunCands 1 3 cs).flatMap (fun p =>
        ((commaGroupCands p.2).filter (fun q => !q.1.isEmpty)).filterMap (fun q =>
          (dotTwo q.2).map (fun r => (p.1 ++ q.1 ++ r.1, r.2))))) = [] := by
      rw [List.flatMap_eq_nil_iff]
      intro p hp
      have hps : p.2 <:+ cs := digitRunCands_rest_suffix p hp
      rw [commaGroupCands_not_comma (head_ne_comma (fun c hc => hnc c (hps.subset hc)))]
      rfl
    rw [hfl]
    rfl
  · rfl

theorem suffix_append_cases {cs xs ys : List Char} (h : cs <:+ xs ++ ys) :
    cs <:+ ys ∨ ∃ xs', xs' <:+ xs ∧ cs = xs' ++ ys := by
  induction xs with
  | nil => exact Or.inl (by simpa using h)
  | cons x t ih =>
    rw [List.cons_append] at h
    rcases List.suffix_cons_iff.mp h with rfl | h'
    · exact Or.inr ⟨x :: t, List.suffix_refl _, by simp⟩
    · rcases ih h' with h1 | ⟨xs', hxs', rfl⟩
      · exact Or.inl h1
      · exact Or.inr ⟨xs', hxs'.trans (List.suffix_cons x t), rfl⟩

theorem takeWhile_nil_of_head {p : Char → Bool} {cs : List Char}
    (h : ∀ c ∈ cs, p c = false) : cs.takeWhile p = [] := by
  cases cs with
  | nil => rfl
  | cons c t =>
    rw [List.takeWhile_cons, if_neg]
    rw [h c (by simp)]
    simp

theorem takeWhile_append_all {p : Char → Bool} {xs : List Char}
    (h : ∀ c ∈ xs, p c = true) (ys : List Char) :
    (xs ++ ys).takeWhile p = xs ++ ys.takeWhile p := by
  induction xs with
  | nil => rfl
  | cons x t ih =>
    rw [List.cons_append, List.takeWhile_cons, if_pos (h x (by simp)),
        ih (fun c hc => h c (by simp [hc])), List.cons_append]

theorem takeWhile_nil_cons {p : Char → Bool} {c : Char} {t : List Char}
    (h : p c = false) : (c :: t).takeWhile p = [] := by
  rw [List.takeWhile_cons, if_neg]
  rw [h]
  simp

/-- The longest digit run starting at any suffix position of a line of the
shape `pre ++ ip ++ "." ++ fp ++ suf` (digit-free `pre`/`suf`, digit blocks
`ip`, `fp`) is at most `max |ip| |fp|`. -/
theorem digit_run_bound {pre ip fp suf cs : List Char}
    (hpre : ∀ c ∈ pre, c.isDigit = false) (hsuf : ∀ c ∈ suf, c.isDigit = false)
    (hip : ∀ c ∈ ip, c.isDigit = true) (hfp : ∀ c ∈ fp, c.isDigit = true)
    (hcs : cs <:+ pre ++ (ip ++ '.' :: (fp ++ suf))) :
    (cs.takeWhile Char.isDigit).length ≤ max ip.length fp.length := by
  have hsufTW : suf.takeWhile Char.isDigit = [] := takeWhile_nil_of_head hsuf
  have hmid : ∀ ip', ip' <:+ ip →
      ((ip' ++ '.' :: (fp ++ suf)).takeWhile Char.isDigit).length
        ≤ max ip.length fp.length := by
    intro ip' hip'
    rw [takeWhile_append_all (fun c hc => hip c (hip'.subset hc)),
        takeWhile_nil_cons (by decide), List.append_nil]
    exact le_max_of_le_left hip'.length_le
  rcases suffix_append_cases hcs with h1 | ⟨pre', hpre', rfl⟩
  · rcases suffix_append_cases h1 with h2 | ⟨ip', hip', rfl⟩
    · rcases List.suffix_cons_iff.mp h2 with rfl | h3
      · rw [takeWhile_nil_cons (by decide)]
        simp
      · rcases suffix_append_cases h3 with h4 | ⟨fp', hfp', rfl⟩
        · cases hc : cs with
          | nil => simp [List.takeWhile]
          | cons c t =>
            subst hc
            rw [takeWhile_nil_cons (hsuf c (h4.subset (by simp)))]
            simp
        · rw [takeWhile_append_all (fun c hc => hfp c (hfp'.subset hc)), hsufTW,
              List.append_nil]
          exact le_max_of_le_right hfp'.length_le
    · exact hmid ip' hip'
  · cases hpc : pre' with
    | nil =>
      subst hpc
      rw [List.nil_append]
      exact hmid ip (List.suffix_refl ip)
    | cons c t =>
      subst hpc
      rw [List.cons_append, takeWhile_nil_cons (hpre c (hpre'.subset (by simp)))]
      simp


theorem p4At_none {prev : Option Char} {cs : List Char}
    (h : (cs.takeWhile Char.isDigit).length ≤ 3) : p4At prev cs = none := by
  simp only [p4At]
  split
  · rw [if_neg (by
      simp only [Bool.and_eq_true, decide_eq_true_eq, not_and]
      intro hge
      exact absurd hge (by omega))]
  · rfl

theorem findAll_nil {pAt : Option Char → List Char → Option (List Char × List Char)}
    {line : List Char} (h : ∀ prev cs, cs <:+ line → pAt prev cs = none) :
    findAll pAt line = [] := by
  have H : ∀ fuel prev cs, cs <:+ line → findAllAux pAt fuel prev cs = [] := by
    intro fuel
    induction fuel with
    | zero =>
      intro prev cs hcs
      rfl
    | succ f ih =>
      intro prev cs hcs
      cases cs with
      | nil => rfl
      | cons c t =>
        rw [findAllAux, h prev (c :: t) hcs]
        exact ih (some c) t ((List.suffix_cons c t).trans hcs)
  exact H (line.length + 1) none line (List.suffix_refl line)

/-- C1: the claim asserts that for the recognized text
`"ABC CAFE\nDate: 12/03/2024\nSubtotal: 450.00\nCGST: 20.00\nTotal: 495.00"`
the pipeline produces exactly one transaction
`{date 2024-03-12, description "ABC CAFE", amount 495.00, type expense}`.
The code instead extracts no transaction at all, for every processing
date: no amount-shape pattern matches the bare decimals `450.00`/`495.00`
(they have fewer than four integer digits, no comma group and no currency
marker), the bank patterns find no credit/debit keyword, and the only
four-digit run `2024` is excluded as a year, so `extract_total_amount`
returns `None` and `extract_transactions` returns `[]`. -/
theorem c1_pipeline_empty_on_receipt (today : List Char) :
    extractFromText c1Text today = [] :=
  extract_none_no_txn _ _ (by decide)

/-- C2 counterexample: a text that contains both the line `"Subtotal 900"`
and the line `"Grand Total 1200"` but resolves to `900`, because an
earlier line `"Grand Total Rs 900"` also carries priority 200 and the
stable sort keeps the first retained candidate of maximal priority. -/
theorem c2_counterexample :
    ("Subtotal 900".toList ∈
        splitLines ("Grand Total Rs 900\nSubtotal 900\nGrand Total 1200".toList)) ∧
    ("Grand Total 1200".toList ∈
        splitLines ("Grand Total Rs 900\nSubtotal 900\nGrand Total 1200".toList)) ∧
    extract_total_amount ("Grand Total Rs 900\nSubtotal 900\nGrand Total 1200".toList) =
      some 900 := by decide

/-- C2 (amended): `AmountResolver` returns the value of the
highest-priority candidate, the first discovered in source order on ties
(`specSelect`), which is a member of the candidate list of maximal
priority; and the two-line text `"Subtotal 900\nGrand Total 1200"`
resolves to `1200`.  (The original "any text containing both lines"
is refuted by `c2_counterexample`.) -/
theorem c2_amended :
    (∀ text : List Char,
       extract_total_amount text = (specSelect (allCandidates text)).map Cand.amount) ∧
    (∀ (text : List Char) (c : Cand), specSelect (allCandidates text) = some c →
       c ∈ allCandidates text ∧ ∀ d ∈ allCandidates text, d.priority ≤ c.priority) ∧
    extract_total_amount ("Subtotal 900\nGrand Total 1200".toList) = some 1200 :=
  ⟨extract_total_amount_eq_specSelect,
   fun _ _ h => ⟨specSelect_mem h, specSelect_max h⟩,
   by decide⟩

/-- C2 witness: the amended selection facts instantiated on the two-line
text, with the hypothesis discharged by evaluation. -/
theorem c2_amended_witness :
    extract_total_amount ("Subtotal 900\nGrand Total 1200".toList) =
      (specSelect (allCandidates ("Subtotal 900\nGrand Total 1200".toList))).map Cand.amount ∧
    (⟨1200, 200⟩ : Cand) ∈ allCandidates ("Subtotal 900\nGrand Total 1200".toList) ∧
    ∀ d ∈ allCandidates ("Subtotal 900\nGrand Total 1200".toList), d.priority ≤ 200 :=
  ⟨c2_amended.1 _,
   (c2_amended.2.1 _ ⟨1200, 200⟩ (by decide)).1,
   (c2_amended.2.1 _ ⟨1200, 200⟩ (by decide)).2⟩

/-- C3 counterexample: the claim asserts that for a text containing
`"Date 15/03/2024"` and `"Total 2024"` the resolver does not select the
bare integer `2024`.  In the code the line `"Total 2024"` carries the
total keyword `total`, so strategy 1 matches `\b(\d{4,})\b` and selects
`2024` at priority 100 — the year-exclusion lives only in the
no-keyword fallback (strategy 3) and never runs here. -/
theorem c3_counterexample :
    extract_total_amount ("Date 15/03/2024\nTotal 2024".toList) = some 2024 := by decide

/-- C3 (amended): the year-exclusion applies only in the
largest-number fallback: with the keyword line `"Total 2024"` the value
`2024` IS selected (strategy 1 has no year filter); without any
total-keyword line the bare integer `2024` is excluded and no amount is
found; and writing it `"2024.00"` still selects nothing, because
`\b(\d{4,})\b` captures only the integer part `2024`, which is again
year-excluded, and no other amount pattern matches a bare decimal. -/
theorem c3_amended :
    extract_total_amount ("Date 15/03/2024\nTotal 2024".toList) = some 2024 ∧
    extract_total_amount ("Date 15/03/2024\n2024".toList) = none ∧
    extract_total_amount ("Date 15/03/2024\n2024.00".toList) = none := by decide

/-- C4: every transaction record the pipeline returns has a strictly
positive amount (the `if not amount` guard drops `0.0`, and every
candidate value is a non-negative cleaned decimal), a non-empty
description of at most 100 characters, a type that is exactly `income`
or `expense`, a raw-text sample of at most 500 characters; and one call
returns at most one transaction. -/
theorem c4_invariants (text today : List Char) (t : Txn)
    (ht : t ∈ extractFromText text today) :
    0 < t.amount ∧ t.description ≠ [] ∧ t.description.length ≤ 100 ∧
    (t.ttype = "income".toList ∨ t.ttype = "expense".toList) ∧
    t.raw_text.length ≤ 500 ∧ (extractFromText text today).length ≤ 1 := by
  unfold extractFromText at ht
  split at ht
  · simp at ht
  · split at ht
    · simp at ht
    · next a ha =>
      split at ht
      · simp at ht
      · next hz =>
        simp only [List.mem_singleton] at ht
        subst ht
        refine ⟨lt_of_le_of_ne (extract_amount_nonneg ha) (Ne.symm hz),
                (extract_description_ok text).1, (extract_description_ok text).2, ?_, ?_,
                extractFromText_len_le_one text today⟩
        · show detect_transaction_type text (extract_description text) = "income".toList ∨
              detect_transaction_type text (extract_description text) = "expense".toList
          unfold detect_transaction_type
          split
          · exact Or.inl rfl
          · exact Or.inr rfl
        · show (text.take 500).length ≤ 500
          rw [List.length_take]
          exact min_le_left _ _

/-- C4 witness: the invariants instantiated on the concrete extraction
from `"Payment Rs 2,500.00"` (one transaction: amount 2500, description
`"Payment Rs 2"`, type expense). -/
theorem c4_witness :
    0 < (⟨"2026-10-12".toList, "Payment Rs 2".toList, 2500, "expense".toList,
          "Payment Rs 2,500.00".toList⟩ : Txn).amount ∧
    (⟨"2026-10-12".toList, "Payment Rs 2".toList, (2500 : ℚ), "expense".toList,
          "Payment Rs 2,500.00".toList⟩ : Txn).description ≠ [] ∧
    (⟨"2026-10-12".toList, "Payment Rs 2".toList, (2500 : ℚ), "expense".toList,
          "Payment Rs 2,500.00".toList⟩ : Txn).description.length ≤ 100 ∧
    ((⟨"2026-10-12".toList, "Payment Rs 2".toList, (2500 : ℚ), "expense".toList,
          "Payment Rs 2,500.00".toList⟩ : Txn).ttype = "income".toList ∨
     (⟨"2026-10-12".toList, "Payment Rs 2".toList, (2500 : ℚ), "expense".toList,
          "Payment Rs 2,500.00".toList⟩ : Txn).ttype = "expense".toList) ∧
    (⟨"2026-10-12".toList, "Payment Rs 2".toList, (2500 : ℚ), "expense".toList,
          "Payment Rs 2,500.00".toList⟩ : Txn).raw_text.length ≤ 500 ∧
    (extractFromText ("Payment Rs 2,500.00".toList) ("2026-10-12".toList)).length ≤ 1 :=
  c4_invariants ("Payment Rs 2,500.00".toList) ("2026-10-12".toList) _ (by
    rw [show extractFromText ("Payment Rs 2,500.00".toList) ("2026-10-12".toList) =
        [⟨"2026-10-12".toList, "Payment Rs 2".toList, (2500 : ℚ), "expense".toList,
          "Payment Rs 2,500.00".toList⟩] from by decide]
    exact List.mem_singleton.mpr rfl)

/-- C5 counterexample: the guard of the source is
`len(text.strip()) < 5`, which counts internal whitespace, not the
"fewer than 5 non-whitespace characters" of the claim: the text
`"Rs  22"` has 4 non-whitespace characters yet survives the guard and
yields a transaction (amount 22 via the largest-number fallback). -/
theorem c5_counterexample :
    nonWSLength ("Rs  22".toList) < 5 ∧
    extractFromText ("Rs  22".toList) ("2026-10-12".toList) ≠ [] := by decide

/-- C5 (amended): if the final recognized text, after stripping
leading and trailing whitespace, is shorter than 5 characters, the
extraction call returns the empty result (no transaction, no error). -/
theorem c5_amended (text today : List Char) (h : (pyStrip text).length < 5) :
    extractFromText text today = [] := by
  unfold extractFromText
  split
  · rfl
  · next hcond => simp [h] at hcond

/-- C5 witness: the amended guard instantiated on the two-character
text `"ab"`. -/
theorem c5_amended_witness :
    (pyStrip ("ab".toList)).length < 5 ∧
    extractFromText ("ab".toList) ("2026-10-12".toList) = [] :=
  ⟨by decide, c5_amended _ _ (by decide)⟩

/-- C6 counterexample: `extract_date` normalises through
`strftime('%Y-%m-%d')`, whose `%Y` is not zero-padded below year 1000
(CPython/glibc behaviour): the text `"Date: 0042-1-1"` parses under
`%Y-%m-%d` to year 42 and yields `"42-01-01"` — not of the
`YYYY-MM-DD` shape the claim asserts, and not the fallback date
either. -/
theorem c6_counterexample :
    extract_date ("Date: 0042-1-1".toList) ("2026-10-12".toList) = "42-01-01".toList ∧
    isISOShape (extract_date ("Date: 0042-1-1".toList) ("2026-10-12".toList)) = false ∧
    extract_date ("Date: 0042-1-1".toList) ("2026-10-12".toList) ≠ "2026-10-12".toList := by
  decide

/-- C6 (amended): `extract_date` is total and never fails: when no
structural pattern matches it returns the processing date, and in every
other case it returns either the processing date or the
`strftime('%Y-%m-%d')` rendering of a validated calendar date; that
rendering has the `YYYY-MM-DD` shape whenever the parsed year has four
digits (`year ≥ 1000`), the only years a recognized text can produce
except through an explicitly zero-padded year string such as `"0042"`. -/
theorem c6_amended :
    (∀ text today : List Char,
       search (dp1At true) text = none → search (dp2At true) text = none →
       search (dp3At true) text = none → search (dp4At true) text = none →
       extract_date text today = today) ∧
    (∀ text today : List Char,
       extract_date text today = today ∨
       ∃ pd : PyDate, 1 ≤ pd.year ∧ pd.year ≤ 9999 ∧ 1 ≤ pd.month ∧ pd.month ≤ 12 ∧
         1 ≤ pd.day ∧ pd.day ≤ 31 ∧ extract_date text today = formatISO pd ∧
         (1000 ≤ pd.year → isISOShape (extract_date text today) = true)) := by
  constructor
  · intro text today h1 h2 h3 h4
    exact extract_date_today_of_no_parse text today
      (by rw [h1]; rfl) (by rw [h2]; rfl) (by rw [h3]; rfl) (by rw [h4]; rfl)
  · intro text today
    cases hd : dateFromText text with
    | none =>
      left
      unfold extract_date
      rw [hd]
      rfl
    | some s =>
      right
      obtain ⟨pAt, _, hp⟩ := findSomeInv hd
      cases hs : search pAt text with
      | none => rw [hs] at hp; exact absurd hp (by simp)
      | some m =>
        rw [hs] at hp
        have hp' : (tryFormats m.1).map formatISO = some s := hp
        obtain ⟨pd, hpd, hsf⟩ := Option.map_eq_some'.1 hp'
        obtain ⟨f, _, hf⟩ := findSomeInv hpd
        cases hft : f m.1 with
        | none => rw [hft] at hf; exact absurd hf (by simp)
        | some t =>
          rw [hft] at hf
          have hf' : mkDate t.1 t.2.1 t.2.2 = some pd := hf
          obtain ⟨hpd_eq, hy1, hy2, hm1, hm2, hd1, hd2⟩ := mkDate_some hf'
          have hex : extract_date text today = formatISO pd := by
            unfold extract_date
            rw [hd, hsf]
            rfl
          subst hpd_eq
          exact ⟨⟨t.1, t.2.1, t.2.2⟩, hy1, hy2, hm1, hm2, hd1, hd2, hex,
            fun hby => by rw [hex]; exact formatISO_shape hby hy2⟩

/-- C6 witness: the no-match fallback instantiated on the text
`"hello"`, and the day-month-year text `"Date: 12/03/2024"` landing in
the rendered-date branch with the `YYYY-MM-DD` shape. -/
theorem c6_witness :
    (extract_date ("hello".toList) ("2026-10-12".toList) = "2026-10-12".toList) ∧
    (extract_date ("Date: 12/03/2024".toList) ("2026-10-12".toList) = "2024-03-12".toList ∧
     isISOShape (extract_date ("Date: 12/03/2024".toList) ("2026-10-12".toList)) = true) :=
  ⟨c6_amended.1 ("hello".toList) ("2026-10-12".toList)
     (by decide) (by decide) (by decide) (by decide),
   by decide⟩

/-- C7: the classifier returns `income` exactly when the number of
income-indicator keywords occurring (case-insensitively) as substrings
of the text strictly exceeds the number of expense-indicator keywords,
and `expense` otherwise; in particular every tie is classified
`expense`, and no third value exists. -/
theorem c7_classifier (text description : List Char) :
    (detect_transaction_type text description =
      if kwScore incomeKeywords (text.map lc) > kwScore expenseKeywords (text.map lc)
      then "income".toList else "expense".toList) ∧
    (kwScore incomeKeywords (text.map lc) = kwScore expenseKeywords (text.map lc) →
      detect_transaction_type text description = "expense".toList) := by
  constructor
  · rfl
  · intro h
    unfold detect_transaction_type
    rw [if_neg]
    omega

/-- C7 witness: the tie case instantiated on `"credit debit"`
(one income hit, one expense hit). -/
theorem c7_witness :
    kwScore incomeKeywords (("credit debit".toList).map lc) =
      kwScore expenseKeywords (("credit debit".toList).map lc) ∧
    detect_transaction_type ("credit debit".toList) [] = "expense".toList :=
  ⟨by decide, (c7_classifier _ _).2 (by decide)⟩

/-- C8: amount cleaning is format-tolerant and idempotent.  The three
inputs `"\u20b91,234.56"`, `"1,234.56 Rs"` and `"1.234.56"` (malformed double
separator) all clean to the value `1234.56`, and whenever `_clean_amount`
succeeds with value `v`, cleaning the plain decimal rendering of `v`
again yields `v`. -/
theorem c8_clean_amount :
    (cleanAmount ("₹1,234.56".toList) = some (decimalToRat 1234 56 2)
      ∧ cleanAmount ("1,234.56 Rs".toList) = some (decimalToRat 1234 56 2)
      ∧ cleanAmount ("1.234.56".toList) = some (decimalToRat 1234 56 2)
      ∧ decimalToRat 1234 56 2 = 1234 + 56 / 100)
    ∧ ∀ s v, cleanAmount s = some v → cleanAmount (decimalRender v) = some v := by
  constructor
  · refine ⟨by decide, by decide, by decide, ?_⟩
    rw [decimalToRat_eq]
    norm_num
  · intro s v h
    obtain ⟨cs', hcs'⟩ : ∃ cs', cleanAmount s = parseFloat cs' := ⟨_, rfl⟩
    rw [hcs'] at h
    obtain ⟨N, k, hvk⟩ := parseFloat_shape h
    have hv0 : (0 : ℚ) ≤ v := by
      rw [hvk]
      positivity
    have hden : v.den ∣ 10 ^ k := by
      rw [hvk]
      exact den_dvd_of_div_pow
    exact cleanAmount_render hv0 hden

/-- C8 witness: the idempotence theorem instantiated on the input
`"45.50"`, whose cleaned value is `45.50`. -/
theorem c8_clean_amount_witness :
    cleanAmount ("45.50".toList) = some (decimalToRat 45 50 2)
      ∧ cleanAmount (decimalRender (decimalToRat 45 50 2)) = some (decimalToRat 45 50 2) :=
  ⟨by decide, c8_clean_amount.2 ("45.50".toList) (decimalToRat 45 50 2) (by decide)⟩

/-- C9 counterexample: the claim concludes that a line whose only numeric
content is a bare small decimal contributes no amount candidate under any
of the three strategies.  The first half is right (no amount-shape pattern
matches `"Credited: 450.00"`), but the bank-marker strategy's own regexes
accept a bare decimal after a credit/debit keyword, so the line still
yields a candidate and the resolver returns `450`. -/
theorem c9_counterexample :
    lineAmountMatches ("Credited: 450.00".toList) = []
      ∧ extract_total_amount ("Credited: 450.00".toList) = some 450 := by decide

/-- C9 (amended, first half of the claim): on any line consisting of a
bare decimal `ip.fp` with at most three integer digits and at most three
fractional digits, surrounded by digit-free text, with no comma anywhere
and no currency marker (`Rs`/`INR`/`\u20b9`, any case), none of the four
amount-shape patterns matches, so the line contributes no candidate
through strategy 1 or strategy 3 (both read `lineAmountMatches`).  The
counterexample shows the bank-pattern strategy 2 is not covered. -/
theorem c9_no_bare_decimal (pre ip fp suf : List Char)
    (hpre : ∀ c ∈ pre, c.isDigit = false) (hsuf : ∀ c ∈ suf, c.isDigit = false)
    (hip : ∀ c ∈ ip, c.isDigit = true) (hip3 : ip.length ≤ 3)
    (hfp : ∀ c ∈ fp, c.isDigit = true) (hfp3 : fp.length ≤ 3)
    (hnc : ∀ c ∈ pre ++ (ip ++ '.' :: (fp ++ suf)), c ≠ ',')
    (hcur : noCurrencyMark (pre ++ (ip ++ '.' :: (fp ++ suf))) = true) :
    lineAmountMatches (pre ++ (ip ++ '.' :: (fp ++ suf))) = [] := by
  have hcm := currencyMark_none hcur
  unfold lineAmountMatches
  rw [findAll_nil (fun prev cs hcs => p1At_none (hcm cs hcs)),
      findAll_nil (fun prev cs hcs => p2At_none hcs hcm hnc),
      findAll_nil (fun prev cs hcs => p3At_none (fun c hc => hnc c (hcs.subset hc))),
      findAll_nil (fun prev cs hcs => p4At_none
        (le_trans (digit_run_bound hpre hsuf hip hfp hcs) (max_le hip3 hfp3)))]
  rfl

/-- C9 witness: the no-match family instantiated on the receipt line
`"Total: 495.00"`. -/
theorem c9_witness :
    lineAmountMatches ("Total: ".toList ++ ("495".toList ++ '.' :: ("00".toList ++ []))) = [] :=
  c9_no_bare_decimal ("Total: ".toList) ("495".toList) ("00".toList) []
    (by decide) (by decide) (by decide) (by decide) (by decide) (by decide)
    (by decide) (by decide)

/-- C10: when every structural date pattern either does not match or its
first match parses under none of the ten concrete formats, the date
resolver silently falls back to the current processing date instead of
raising (the source's inner loop exhausts the formats and the outer
loop moves to the next pattern). -/
theorem c10_unparseable_falls_back (text today : List Char)
    (h1 : (search (dp1At true) text).bind (fun m => tryFormats m.1) = none)
    (h2 : (search (dp2At true) text).bind (fun m => tryFormats m.1) = none)
    (h3 : (search (dp3At true) text).bind (fun m => tryFormats m.1) = none)
    (h4 : (search (dp4At true) text).bind (fun m => tryFormats m.1) = none) :
    extract_date text today = today :=
  extract_date_today_of_no_parse text today h1 h2 h3 h4

/-- C10 witness: `"99/99/2024"` matches the first structural pattern but
parses under no format, and the resolver returns the processing date. -/
theorem c10_witness :
    ((search (dp1At true) ("99/99/2024".toList)).bind (fun m => tryFormats m.1) = none) ∧
    extract_date ("99/99/2024".toList) ("2026-10-12".toList) = "2026-10-12".toList :=
  ⟨by decide,
   c10_unparseable_falls_back _ _ (by decide) (by decide) (by decide) (by decide)⟩

end SmartCA
